import Mathlib

/-!
Verification of the tagged-text resume parsers in `converter.py`
(`parse_text_for_template_1`, lines 117-152, and `parse_text_for_template_2`,
lines 308-358).

The Python dictionaries are modelled as insertion-ordered association lists.
Values are modelled by a small dynamic-value type covering every shape the
two parsers can produce, including the shapes arising from Python's
`list += str` (which extends a list with the characters of the string).
Fallible operations (`d[k]`, `l[-1]`, item assignment on a non-dict,
`.append` on a non-list) are modelled in `Except String`, with the error
string naming the Python exception class that would be raised.

String primitives (`str.strip`, `str.split`, `str.lstrip`, `str.startswith`,
substring membership) are defined structurally over `List Char` so that all
definitions evaluate inside the kernel.
-/

namespace ResumeConverter

/-- Values stored inside a job dictionary: flat fields are strings and
`"Responsibilities"` is a list of strings. -/
inductive JVal where
  | str : String → JVal
  | strList : List String → JVal
deriving DecidableEq, Repr

/-- A job record: a Python dict from field name to value, insertion ordered. -/
abbrev JobDict := List (String × JVal)

/-- An element of the top-level `"Jobs"` list.  Normally a job dict; the
`ch` constructor models the single-character strings that Python's
`list += str` pushes onto the list in `parse_text_for_template_2`. -/
inductive JobsElem where
  | job : JobDict → JobsElem
  | ch : String → JobsElem
deriving DecidableEq, Repr

/-- A top-level value of the resume dictionary: a string or the Jobs list. -/
inductive TopVal where
  | str : String → TopVal
  | jobs : List JobsElem → TopVal
deriving DecidableEq, Repr

/-- The resume dictionary under construction, insertion ordered. -/
abbrev Record := List (String × TopVal)

/-- Python `d[k]` lookup on an association list (first binding wins, and
`setVal` keeps keys unique). -/
def getVal : List (String × α) → String → Option α
  | [], _ => none
  | (k, v) :: rest, key => if k = key then some v else getVal rest key

/-- Python `d[k] = v`: update in place if the key exists, else append
(insertion order). -/
def setVal : List (String × α) → String → α → List (String × α)
  | [], key, v => [(key, v)]
  | (k, w) :: rest, key, v =>
    if k = key then (k, v) :: rest else (k, w) :: setVal rest key v

/-- Python `k in d` on a dict. -/
def hasKey (d : List (String × α)) (key : String) : Bool :=
  (getVal d key).isSome

/-- Python truthiness of `d.get(k)`: `None`, `""`, and `[]` are falsy. -/
def truthyOpt : Option TopVal → Bool
  | none => false
  | some (.str s) => !(s == "")
  | some (.jobs l) => !l.isEmpty

/-- Python `+=` on a resume value.  On a string it concatenates; on a list
it extends the list with the characters of the right-hand string (this is
exactly what `resume_data["Jobs"] += line + "\n"` does). -/
def topIAdd : TopVal → String → TopVal
  | .str v, s => .str (v ++ s)
  | .jobs l, s => .jobs (l ++ s.data.map (fun c => JobsElem.ch (String.singleton c)))

/-! ### String primitives, mirroring the Python string methods used -/

/-- Python `str.strip()` (for the whitespace the inputs contain). -/
def pyStrip (s : String) : String :=
  ⟨((s.data.dropWhile Char.isWhitespace).reverse.dropWhile Char.isWhitespace).reverse⟩

/-- Split a character list at every occurrence of `c`, keeping empty parts,
like Python `str.split(c)`. -/
def splitOnChar (c : Char) : List Char → List (List Char)
  | [] => [[]]
  | x :: xs =>
    let r := splitOnChar c xs
    if x = c then [] :: r
    else
      match r with
      | [] => [[x]]
      | y :: ys => (x :: y) :: ys

/-- Python `text.split('\n')`. -/
def splitLines (text : String) : List String :=
  (splitOnChar '\n' text.data).map (fun l => ⟨l⟩)

/-- Split a character list at the first occurrence of `c`; `none` when `c`
does not occur.  This is Python `s.split(c, 1)` (which yields two parts
exactly when `c` occurs, i.e. when `c in s`). -/
def splitFirstAux (c : Char) : List Char → Option (List Char × List Char)
  | [] => none
  | x :: xs =>
    if x = c then some ([], xs)
    else (splitFirstAux c xs).map (fun p => (x :: p.1, p.2))

/-- Python `line.split(":", 1)` on strings, as an optional pair. -/
def pySplitFirst (s : String) (c : Char) : Option (String × String) :=
  (splitFirstAux c s.data).map (fun p => (⟨p.1⟩, ⟨p.2⟩))

/-- Python `s.startswith('-')`. -/
def startsWithDash (s : String) : Bool :=
  match s.data with
  | [] => false
  | c :: _ => c = '-'

/-- Python `s.lstrip('- ')`: drop every leading dash or space. -/
def pyLstripDashSpace (s : String) : String :=
  ⟨s.data.dropWhile (fun c => c = '-' || c = ' ')⟩

/-- Python list-of-chars prefix test, for substring membership. -/
def isPrefixL : List Char → List Char → Bool
  | [], _ => true
  | _ :: _, [] => false
  | a :: as, b :: bs => a = b && isPrefixL as bs

/-- Python `pat in s` substring membership on character lists. -/
def containsSubL (pat : List Char) : List Char → Bool
  | [] => isPrefixL pat []
  | s@(_ :: rest) => isPrefixL pat s || containsSubL pat rest

/-! ### Line classification shared by both parsers

Both parsers first compare the stripped line against the two job markers,
then try `line.split(":", 1)` guarded by `":" in line and not
stripped_line.startswith('-')`. -/

/-- The split of a line into trimmed key and raw value, exactly when the
line contains a colon and its stripped form does not start with a dash. -/
def lineKV (line : String) : Option (String × String) :=
  match pySplitFirst line ':' with
  | some (k, v) =>
    if startsWithDash (pyStrip line) then none else some (pyStrip k, v)
  | none => none

/-- The four state-independent line categories the parsers distinguish. -/
inductive LineClass where
  | jobStart
  | jobEnd
  | kv (k v : String)
  | plain
deriving DecidableEq, Repr

/-- Classify one input line: job markers first, then key/value split. -/
def classifyLine (line : String) : LineClass :=
  if pyStrip line = "---JOB START---" then .jobStart
  else if pyStrip line = "---JOB END---" then .jobEnd
  else
    match lineKV line with
    | some (k, v) => .kv k v
    | none => .plain

/-- Parser state: the record under construction and `current_key`. -/
structure PState where
  rd : Record
  ck : Option String
deriving DecidableEq, Repr

/-! ### Composite fallible operations on the record -/

/-- `resume_data["Jobs"].append({})` in `parse_text_for_template_1`
(the key is present from initialization; appending to a string raises
`AttributeError`). -/
def appendNewJob (rd : Record) : Except String Record :=
  match getVal rd "Jobs" with
  | some (.jobs l) => .ok (setVal rd "Jobs" (.jobs (l ++ [.job []])))
  | some (.str _) => .error "AttributeError"
  | none => .error "KeyError"

/-- Template 2 job start: `if "Jobs" not in resume_data: resume_data["Jobs"]
= []` followed by `resume_data["Jobs"].append({})`. -/
def startJob2 (rd : Record) : Except String Record :=
  match getVal rd "Jobs" with
  | none => .ok (setVal rd "Jobs" (.jobs [.job []]))
  | some (.jobs l) => .ok (setVal rd "Jobs" (.jobs (l ++ [.job []])))
  | some (.str _) => .error "AttributeError"

/-- `resume_data["Jobs"][-1][k] = v`: Python raises `IndexError` on an empty
list, and `TypeError` when the last element is not a dict (in particular
when it is one of the stray characters, or when `resume_data["Jobs"]` is a
string, whose last character is itself a string). -/
def setLastJobField (rd : Record) (k v : String) : Except String Record :=
  match getVal rd "Jobs" with
  | some (.jobs l) =>
    match l.getLast? with
    | some (.job d) =>
      .ok (setVal rd "Jobs" (.jobs (l.dropLast ++ [.job (setVal d k (.str v))])))
    | some (.ch _) => .error "TypeError"
    | none => .error "IndexError"
  | some (.str s) => if s.data = [] then .error "IndexError" else .error "TypeError"
  | none => .error "KeyError"

/-- `if "Responsibilities" not in d: d["Responsibilities"] = []`. -/
def respEnsure (d : JobDict) : JobDict :=
  if hasKey d "Responsibilities" then d else setVal d "Responsibilities" (.strList [])

/-- The shared `Responsibilities:` handling: ensure the key holds a list in
the current job, then optionally append a first entry. -/
def respInitAppend (rd : Record) (toAppend : Option String) : Except String Record :=
  match getVal rd "Jobs" with
  | some (.jobs l) =>
    match l.getLast? with
    | some (.job d) =>
      match toAppend with
      | none => .ok (setVal rd "Jobs" (.jobs (l.dropLast ++ [.job (respEnsure d)])))
      | some a =>
        match getVal (respEnsure d) "Responsibilities" with
        | some (.strList xs) =>
          .ok (setVal rd "Jobs"
            (.jobs (l.dropLast ++
              [.job (setVal (respEnsure d) "Responsibilities" (.strList (xs ++ [a])))])))
        | some (.str _) => .error "AttributeError"
        | none => .error "KeyError"
    | some (.ch c) =>
      if containsSubL "Responsibilities".data c.data then .error "AttributeError"
      else .error "TypeError"
    | none => .error "IndexError"
  | some (.str s) =>
    if s.data = [] then .error "IndexError" else .error "TypeError"
  | none => .error "KeyError"

/-- Template 1 bare-line accumulation into the open Responsibilities list
(lines 150-151): guarded by `if "Responsibilities" in resume_data["Jobs"][-1]`,
so a missing key silently drops the line. -/
def respAppendIfPresent (rd : Record) (x : String) : Except String Record :=
  match getVal rd "Jobs" with
  | some (.jobs l) =>
    match l.getLast? with
    | some (.job d) =>
      match getVal d "Responsibilities" with
      | some (.strList xs) =>
        .ok (setVal rd "Jobs"
          (.jobs (l.dropLast ++ [.job (setVal d "Responsibilities" (.strList (xs ++ [x])))])))
      | some (.str _) => .error "AttributeError"
      | none => .ok rd
    | some (.ch c) =>
      if containsSubL "Responsibilities".data c.data then .error "TypeError" else .ok rd
    | none => .error "IndexError"
  | some (.str s) =>
    if s.data = [] then .error "IndexError"
    else if containsSubL "Responsibilities".data [s.data.getLastD ' '] then .error "TypeError"
    else .ok rd
  | none => .error "KeyError"

/-- Template 2 bare-line accumulation into the open Responsibilities list
(line 355): `resume_data["Jobs"][-1]["Responsibilities"].append(...)`, with
no membership guard. -/
def respAppend2 (rd : Record) (x : String) : Except String Record :=
  match getVal rd "Jobs" with
  | some (.jobs l) =>
    match l.getLast? with
    | some (.job d) =>
      match getVal d "Responsibilities" with
      | some (.strList xs) =>
        .ok (setVal rd "Jobs"
          (.jobs (l.dropLast ++ [.job (setVal d "Responsibilities" (.strList (xs ++ [x])))])))
      | some (.str _) => .error "AttributeError"
      | none => .error "KeyError"
    | some (.ch _) => .error "TypeError"
    | none => .error "IndexError"
  | some (.str s) => if s.data = [] then .error "IndexError" else .error "TypeError"
  | none => .error "KeyError"

/-! ### Template 1 parser (`parse_text_for_template_1`, lines 117-152) -/

/-- The recognized top-level keys of template 1 (`main_keys`, line 121). -/
def mainKeys1 : List String :=
  ["FullName", "Professional Summary", "Roles", "Technologies", "Education",
   "Certifications", "Geographic locale", "Professional and Experience Summary"]

/-- The recognized per-job keys of template 1 (line 139). -/
def jobKeys1 : List String :=
  ["CompanyName", "Role", "Duration", "Client", "BusinessValue", "Description",
   "Responsibilities"]

/-- The flat (single string) per-job keys of template 1 (line 140). -/
def flatJobKeys1 : List String :=
  ["CompanyName", "Role", "Duration", "Client", "BusinessValue", "Description"]

/-- Template 1 fallthrough branches (lines 147-151): free-text accumulation
into the active top-level field, or appending to the open Responsibilities
list. -/
def afterKV1 (s : PState) (line : String) : Except String PState :=
  match s.ck with
  | none => .ok s
  | some c =>
    if c ∈ mainKeys1 ∧ c ≠ "FullName" ∧ pyStrip line ≠ "" then
      match getVal s.rd c with
      | some tv => .ok ⟨setVal s.rd c (topIAdd tv ("\n" ++ pyStrip line)), s.ck⟩
      | none => .error "KeyError"
    else if c = "Responsibilities" ∧ pyStrip line ≠ "" then
      (respAppendIfPresent s.rd (pyStrip line)).map (fun rd => ⟨rd, s.ck⟩)
    else .ok s

/-- One line of `parse_text_for_template_1`. -/
def step1 (s : PState) (line : String) : Except String PState :=
  match classifyLine line with
  | .jobStart => (appendNewJob s.rd).map (fun rd => ⟨rd, some "Jobs"⟩)
  | .jobEnd => .ok ⟨s.rd, none⟩
  | .kv k v =>
    let v' := pyStrip v
    if k ∈ mainKeys1 then .ok ⟨setVal s.rd k (.str v'), some k⟩
    else if s.ck = some "Jobs" ∧ k ∈ jobKeys1 then
      if k ∈ flatJobKeys1 then (setLastJobField s.rd k v').map (fun rd => ⟨rd, s.ck⟩)
      else
        (respInitAppend s.rd (if v' = "" then none else some v')).map
          (fun rd => ⟨rd, some "Responsibilities"⟩)
    else afterKV1 s line
  | .plain => afterKV1 s line

/-- `parse_text_for_template_1`: fold the line processor over
`text.split('\n')` starting from `{"Jobs": []}`. -/
def parse_text_for_template_1 (text : String) : Except String Record :=
  ((splitLines text).foldlM step1 ⟨[("Jobs", .jobs [])], none⟩).map PState.rd

/-! ### Template 2 parser (`parse_text_for_template_2`, lines 308-358) -/

/-- The recognized multi-line top-level keys of template 2 (line 332). -/
def multiKeys2 : List String :=
  ["ProfessionalOverviewSummary", "Education", "Publications",
   "ProfessionalTrainingCertifications", "GeographicLocale",
   "ProfessionalOverviewTable", "KeyEngagementsTable"]

/-- The flat per-job keys of template 2 (line 336). -/
def flatJobKeys2 : List String := ["CompanyName", "Role", "Duration", "Client"]

/-- One line of `parse_text_for_template_2`. -/
def step2 (s : PState) (line : String) : Except String PState :=
  match classifyLine line with
  | .jobStart => (startJob2 s.rd).map (fun rd => ⟨rd, some "Jobs"⟩)
  | .jobEnd => .ok ⟨s.rd, none⟩
  | .kv k v =>
    if k ∈ multiKeys2 then .ok ⟨setVal s.rd k (.str (pyStrip v ++ "\n")), some k⟩
    else if s.ck = some "Jobs" ∧ truthyOpt (getVal s.rd "Jobs") then
      if k ∈ flatJobKeys2 then (setLastJobField s.rd k (pyStrip v)).map (fun rd => ⟨rd, s.ck⟩)
      else if k = "Responsibilities" then
        (respInitAppend s.rd
          (if pyStrip v = "" then none else some (pyLstripDashSpace (pyStrip v)))).map
          (fun rd => ⟨rd, some "Responsibilities"⟩)
      else .ok s
    else .ok ⟨setVal s.rd k (.str (pyStrip v)), none⟩
  | .plain =>
    match s.ck with
    | none => .ok s
    | some c =>
      if c = "Responsibilities" ∧ truthyOpt (getVal s.rd "Jobs") then
        if pyStrip line ≠ "" then
          (respAppend2 s.rd (pyLstripDashSpace (pyStrip line))).map (fun rd => ⟨rd, s.ck⟩)
        else .ok s
      else
        match getVal s.rd c with
        | some tv => .ok ⟨setVal s.rd c (topIAdd tv (line ++ "\n")), s.ck⟩
        | none => .ok s

/-- `parse_text_for_template_2`: fold the line processor over
`text.split('\n')` starting from the empty dict. -/
def parse_text_for_template_2 (text : String) : Except String Record :=
  ((splitLines text).foldlM step2 ⟨[], none⟩).map PState.rd

/-! ### Projections used by the claims -/

/-- The Jobs list of a record (empty when the key is absent or holds a
string). -/
def jobsOf (rd : Record) : List JobsElem :=
  match getVal rd "Jobs" with
  | some (.jobs l) => l
  | _ => []

/-- The first job dict of a record, when it exists. -/
def firstJob (rd : Record) : Option JobDict :=
  match jobsOf rd with
  | .job d :: _ => some d
  | _ => none

/-- A named field of the first job of a record. -/
def firstJobField (rd : Record) (k : String) : Option JVal :=
  match firstJob rd with
  | some d => getVal d k
  | none => none

/-! ### State invariants and well-formed job blocks (specification-side) -/

/-- The `"Responsibilities"` entry of a job dict, when present, is a list. -/
def RespOK (d : JobDict) : Prop :=
  ∀ v, getVal d "Responsibilities" = some v → ∃ xs, v = JVal.strList xs

/-- Elements of the template 1 Jobs list are always well-shaped job dicts. -/
def GoodJob : JobsElem → Prop
  | .job d => RespOK d
  | .ch _ => False

/-- The state invariant of `parse_text_for_template_1`. -/
structure Inv1 (s : PState) : Prop where
  jobs : ∃ l, getVal s.rd "Jobs" = some (.jobs l) ∧ ∀ e ∈ l, GoodJob e
  jobsNe : (s.ck = some "Jobs" ∨ s.ck = some "Responsibilities") →
    ∀ l, getVal s.rd "Jobs" = some (.jobs l) → l ≠ []
  keys : ∀ k, hasKey s.rd k = true → k = "Jobs" ∨ k ∈ mainKeys1
  ckMain : ∀ c, s.ck = some c → c ∈ mainKeys1 → ∃ w, getVal s.rd c = some (.str w)

/-- Invariant of template 2 on inputs without a job-start marker: the
`"Jobs"` key, if present at all, holds a string (created by the ad-hoc
`key: value` branch), and `current_key` is never in a job mode. -/
def NoJobs2 (s : PState) : Prop :=
  (getVal s.rd "Jobs" = none ∨ ∃ w, getVal s.rd "Jobs" = some (.str w)) ∧
    s.ck ≠ some "Jobs" ∧ s.ck ≠ some "Responsibilities"

/-- A well-formed job block: flat field lines (kept with their key and raw
value), then a `Responsibilities:` header, then bullet lines. -/
structure JobBlock where
  flats : List (String × String × String)
  bullets : List String

/-- The input lines of one job block, markers included. -/
def blockLines (b : JobBlock) : List String :=
  "---JOB START---" :: (b.flats.map (fun x => x.1) ++
    ("Responsibilities:" :: (b.bullets ++ ["---JOB END---"])))

/-- A flat field line of a job block: it splits at its first colon into the
given recognized key and raw value, and is not a marker. -/
abbrev WFFlatLine (ks : List String) (x : String × String × String) : Prop :=
  lineKV x.1 = some (x.2.1, x.2.2) ∧ pyStrip x.1 ≠ "---JOB START---" ∧
    pyStrip x.1 ≠ "---JOB END---" ∧ x.2.1 ∈ ks

/-- A bullet line: starts with a dash once stripped, and is not a marker. -/
abbrev WFBulletLine (ℓ : String) : Prop :=
  startsWithDash (pyStrip ℓ) = true ∧ pyStrip ℓ ≠ "---JOB START---" ∧
    pyStrip ℓ ≠ "---JOB END---"

/-- A well-formed block over the flat-key schema `ks`: every field line is
well formed, the field keys are distinct, and every bullet is well formed. -/
abbrev WFBlock (ks : List String) (b : JobBlock) : Prop :=
  (∀ x ∈ b.flats, WFFlatLine ks x) ∧ (b.flats.map (fun x => x.2.1)).Nodup ∧
    ∀ ℓ ∈ b.bullets, WFBulletLine ℓ

/-- The flat fields a block contributes to its job dict. -/
def jobFlatDict (b : JobBlock) : JobDict :=
  b.flats.map (fun x => (x.2.1, JVal.str (pyStrip x.2.2)))

/-- The job dict template 1 builds from a well-formed block (bullet lines
keep their dash prefix). -/
def jobDict1 (b : JobBlock) : JobDict :=
  jobFlatDict b ++ [("Responsibilities", .strList (b.bullets.map pyStrip))]

/-- The job dict template 2 builds from a well-formed block (bullet lines
are stripped of their leading dashes and spaces). -/
def jobDict2 (b : JobBlock) : JobDict :=
  jobFlatDict b ++
    [("Responsibilities", .strList (b.bullets.map (fun ℓ => pyLstripDashSpace (pyStrip ℓ))))]

/-! ### Association-list lemmas -/

@[simp]
theorem getVal_setVal_self (d : List (String × α)) (k : String) (v : α) :
    getVal (setVal d k v) k = some v := by
  induction d with
  | nil => simp [setVal, getVal]
  | cons p rest ih =>
    obtain ⟨k', w⟩ := p
    by_cases h : k' = k
    · simp [setVal, getVal, h]
    · simp [setVal, getVal, h, ih]

theorem getVal_setVal_ne (d : List (String × α)) (k k' : String) (v : α) (h : k ≠ k') :
    getVal (setVal d k v) k' = getVal d k' := by
  induction d with
  | nil => simp [setVal, getVal, h]
  | cons p rest ih =>
    obtain ⟨k'', w⟩ := p
    by_cases h2 : k'' = k
    · subst h2
      simp [setVal, getVal, h]
    · simp [setVal, getVal, h2, ih]

theorem hasKey_setVal (d : List (String × α)) (k k' : String) (v : α) :
    hasKey (setVal d k v) k' = true ↔ k' = k ∨ hasKey d k' = true := by
  by_cases h : k = k'
  · subst h
    simp [hasKey]
  · rw [hasKey, getVal_setVal_ne d k k' v h]
    simp [hasKey]
    intro h2
    exact absurd h2.symm h

theorem setVal_eq_append (d : List (String × α)) (k : String) (v : α)
    (h : hasKey d k = false) : setVal d k v = d ++ [(k, v)] := by
  induction d with
  | nil => simp [setVal]
  | cons p rest ih =>
    obtain ⟨k', w⟩ := p
    simp only [hasKey, getVal] at h
    by_cases h2 : k' = k
    · simp [h2] at h
    · simp only [setVal, if_neg h2, List.cons_append, List.cons.injEq, true_and]
      exact ih (by simpa [hasKey, h2] using h)

theorem setVal_setVal_self (d : List (String × α)) (k : String) (v w : α) :
    setVal (setVal d k v) k w = setVal d k w := by
  induction d with
  | nil => simp [setVal]
  | cons p rest ih =>
    obtain ⟨k', u⟩ := p
    by_cases h : k' = k
    · simp [setVal, h]
    · simp [setVal, h, ih]

theorem hasKey_eq_false_of_keys (d : List (String × α)) (k : String)
    (h : ∀ p ∈ d, p.1 ≠ k) : hasKey d k = false := by
  induction d with
  | nil => simp [hasKey, getVal]
  | cons p rest ih =>
    obtain ⟨k', w⟩ := p
    have h1 : k' ≠ k := h (k', w) (by simp)
    simp only [hasKey, getVal, if_neg h1]
    exact ih (fun q hq => h q (by simp [hq]))

/-! ### String-primitive lemmas -/

theorem pyStrip_all_whitespace (s : String) (h : pyStrip s = "") :
    ∀ c ∈ s.data, c.isWhitespace = true := by
  intro c hc
  have hdata : ((s.data.dropWhile Char.isWhitespace).reverse.dropWhile
      Char.isWhitespace).reverse = [] := congrArg String.data h
  rw [List.reverse_eq_nil_iff, List.dropWhile_eq_nil_iff] at hdata
  have hdrop : ∀ x ∈ s.data.dropWhile Char.isWhitespace, x.isWhitespace = true := by
    intro x hx
    exact hdata x (List.mem_reverse.mpr hx)
  have hsplit : s.data = s.data.takeWhile Char.isWhitespace ++
      s.data.dropWhile Char.isWhitespace := (List.takeWhile_append_dropWhile _ _).symm
  rw [hsplit] at hc
  rcases List.mem_append.mp hc with h1 | h2
  · exact List.mem_takeWhile_imp h1
  · exact hdrop c h2

theorem splitFirstAux_eq_none_iff (c : Char) (l : List Char) :
    splitFirstAux c l = none ↔ c ∉ l := by
  induction l with
  | nil => simp [splitFirstAux]
  | cons x xs ih =>
    by_cases h : x = c
    · simp [splitFirstAux, h]
    · rw [splitFirstAux, if_neg h]
      constructor
      · intro hn
        cases hs : splitFirstAux c xs with
        | none =>
          intro hm
          rcases List.mem_cons.mp hm with hcx | hm2
          · exact h hcx.symm
          · exact (ih.mp hs) hm2
        | some p =>
          rw [hs] at hn
          simp at hn
      · intro hn
        rw [ih.mpr (fun hm => hn (List.mem_cons_of_mem x hm))]
        rfl

theorem splitFirstAux_append (c : Char) (pre post : List Char) (h : c ∉ pre) :
    splitFirstAux c (pre ++ c :: post) = some (pre, post) := by
  induction pre with
  | nil => simp [splitFirstAux]
  | cons x xs ih =>
    have hx : x ≠ c := fun hh => h (by simp [hh])
    have hxs : c ∉ xs := fun hh => h (by simp [hh])
    simp [splitFirstAux, hx, ih hxs]

theorem lineKV_eq_none_of_dash (line : String) (h : startsWithDash (pyStrip line) = true) :
    lineKV line = none := by
  unfold lineKV
  cases hs : pySplitFirst line ':' with
  | none => rfl
  | some p =>
    obtain ⟨k, v⟩ := p
    simp [h]

theorem lineKV_eq_none_of_blank (line : String) (h : pyStrip line = "") :
    lineKV line = none := by
  have hnc : ':' ∉ line.data := by
    intro hc
    have := pyStrip_all_whitespace line h ':' hc
    simp [Char.isWhitespace] at this
  unfold lineKV pySplitFirst
  rw [(splitFirstAux_eq_none_iff ':' line.data).mpr hnc]
  rfl

theorem classifyLine_of_blank (line : String) (h : pyStrip line = "") :
    classifyLine line = .plain := by
  unfold classifyLine
  rw [h, lineKV_eq_none_of_blank line h]
  rfl

theorem classifyLine_of_dash (line : String) (h : startsWithDash (pyStrip line) = true)
    (h1 : pyStrip line ≠ "---JOB START---") (h2 : pyStrip line ≠ "---JOB END---") :
    classifyLine line = .plain := by
  unfold classifyLine
  rw [if_neg h1, if_neg h2, lineKV_eq_none_of_dash line h]

theorem startsWithDash_ne_empty (s : String) (h : startsWithDash s = true) : s ≠ "" := by
  intro hh
  rw [hh] at h
  simp [startsWithDash] at h

/-! ### Evaluation lemmas for the composite operations -/

theorem appendNewJob_ok (rd : Record) (l : List JobsElem)
    (hJ : getVal rd "Jobs" = some (.jobs l)) :
    appendNewJob rd = .ok (setVal rd "Jobs" (.jobs (l ++ [.job []]))) := by
  unfold appendNewJob
  rw [hJ]

theorem startJob2_ok (rd : Record) (l : List JobsElem)
    (hJ : getVal rd "Jobs" = some (.jobs l)) :
    startJob2 rd = .ok (setVal rd "Jobs" (.jobs (l ++ [.job []]))) := by
  unfold startJob2
  rw [hJ]

theorem startJob2_ok_none (rd : Record) (hJ : getVal rd "Jobs" = none) :
    startJob2 rd = .ok (setVal rd "Jobs" (.jobs [.job []])) := by
  unfold startJob2
  rw [hJ]

theorem setLastJobField_ok (rd : Record) (l : List JobsElem) (d : JobDict) (k v : String)
    (hJ : getVal rd "Jobs" = some (.jobs (l ++ [.job d]))) :
    setLastJobField rd k v =
      .ok (setVal rd "Jobs" (.jobs (l ++ [.job (setVal d k (.str v))]))) := by
  unfold setLastJobField
  rw [hJ]
  simp [List.getLast?_concat, List.dropLast_concat]

theorem respInitAppend_ok_none (rd : Record) (l : List JobsElem) (d : JobDict)
    (hJ : getVal rd "Jobs" = some (.jobs (l ++ [.job d])))
    (hd : hasKey d "Responsibilities" = false) :
    respInitAppend rd none =
      .ok (setVal rd "Jobs" (.jobs (l ++ [.job (setVal d "Responsibilities" (.strList []))]))) := by
  unfold respInitAppend
  rw [hJ]
  simp [List.getLast?_concat, List.dropLast_concat, respEnsure, hd]

theorem respInitAppend_ok_none_present (rd : Record) (l : List JobsElem) (d : JobDict)
    (xs : List String)
    (hJ : getVal rd "Jobs" = some (.jobs (l ++ [.job d])))
    (hd : getVal d "Responsibilities" = some (.strList xs)) :
    respInitAppend rd none = .ok (setVal rd "Jobs" (.jobs (l ++ [.job d]))) := by
  unfold respInitAppend
  rw [hJ]
  simp [List.getLast?_concat, List.dropLast_concat, respEnsure, hasKey, hd]

theorem respInitAppend_ok_some (rd : Record) (l : List JobsElem) (d : JobDict) (a : String)
    (hJ : getVal rd "Jobs" = some (.jobs (l ++ [.job d])))
    (hd : hasKey d "Responsibilities" = false) :
    respInitAppend rd (some a) =
      .ok (setVal rd "Jobs" (.jobs (l ++ [.job (setVal d "Responsibilities" (.strList [a]))]))) := by
  unfold respInitAppend
  rw [hJ]
  simp [List.getLast?_concat, List.dropLast_concat, respEnsure, hd, setVal_setVal_self]

theorem respInitAppend_ok_some_present (rd : Record) (l : List JobsElem) (d : JobDict)
    (xs : List String) (a : String)
    (hJ : getVal rd "Jobs" = some (.jobs (l ++ [.job d])))
    (hd : getVal d "Responsibilities" = some (.strList xs)) :
    respInitAppend rd (some a) =
      .ok (setVal rd "Jobs"
        (.jobs (l ++ [.job (setVal d "Responsibilities" (.strList (xs ++ [a])))]))) := by
  unfold respInitAppend
  rw [hJ]
  simp [List.getLast?_concat, List.dropLast_concat, respEnsure, hasKey, hd]

theorem respAppendIfPresent_ok (rd : Record) (l : List JobsElem) (d : JobDict)
    (xs : List String) (x : String)
    (hJ : getVal rd "Jobs" = some (.jobs (l ++ [.job d])))
    (hd : getVal d "Responsibilities" = some (.strList xs)) :
    respAppendIfPresent rd x =
      .ok (setVal rd "Jobs"
        (.jobs (l ++ [.job (setVal d "Responsibilities" (.strList (xs ++ [x])))]))) := by
  unfold respAppendIfPresent
  rw [hJ]
  simp [List.getLast?_concat, List.dropLast_concat, hd]

theorem respAppendIfPresent_ok_absent (rd : Record) (l : List JobsElem) (d : JobDict)
    (x : String)
    (hJ : getVal rd "Jobs" = some (.jobs (l ++ [.job d])))
    (hd : getVal d "Responsibilities" = none) :
    respAppendIfPresent rd x = .ok rd := by
  unfold respAppendIfPresent
  rw [hJ]
  simp [List.getLast?_concat, hd]

theorem respAppend2_ok (rd : Record) (l : List JobsElem) (d : JobDict)
    (xs : List String) (x : String)
    (hJ : getVal rd "Jobs" = some (.jobs (l ++ [.job d])))
    (hd : getVal d "Responsibilities" = some (.strList xs)) :
    respAppend2 rd x =
      .ok (setVal rd "Jobs"
        (.jobs (l ++ [.job (setVal d "Responsibilities" (.strList (xs ++ [x])))]))) := by
  unfold respAppend2
  rw [hJ]
  simp [List.getLast?_concat, List.dropLast_concat, hd]

/-! ### Step characterization lemmas -/

theorem step1_eq_jobStart (s : PState) (line : String)
    (h : classifyLine line = .jobStart) :
    step1 s line = (appendNewJob s.rd).map (fun rd => ⟨rd, some "Jobs"⟩) := by
  unfold step1
  rw [h]

theorem step1_eq_jobEnd (s : PState) (line : String)
    (h : classifyLine line = .jobEnd) :
    step1 s line = .ok ⟨s.rd, none⟩ := by
  unfold step1
  rw [h]

theorem step1_eq_kv (s : PState) (line k v : String)
    (h : classifyLine line = .kv k v) :
    step1 s line =
      (if k ∈ mainKeys1 then .ok ⟨setVal s.rd k (.str (pyStrip v)), some k⟩
       else if s.ck = some "Jobs" ∧ k ∈ jobKeys1 then
         if k ∈ flatJobKeys1 then
           (setLastJobField s.rd k (pyStrip v)).map (fun rd => ⟨rd, s.ck⟩)
         else
           (respInitAppend s.rd (if pyStrip v = "" then none else some (pyStrip v))).map
             (fun rd => ⟨rd, some "Responsibilities"⟩)
       else afterKV1 s line) := by
  unfold step1
  rw [h]

theorem step1_eq_plain (s : PState) (line : String)
    (h : classifyLine line = .plain) :
    step1 s line = afterKV1 s line := by
  unfold step1
  rw [h]

theorem step2_eq_jobStart (s : PState) (line : String)
    (h : classifyLine line = .jobStart) :
    step2 s line = (startJob2 s.rd).map (fun rd => ⟨rd, some "Jobs"⟩) := by
  unfold step2
  rw [h]

theorem step2_eq_jobEnd (s : PState) (line : String)
    (h : classifyLine line = .jobEnd) :
    step2 s line = .ok ⟨s.rd, none⟩ := by
  unfold step2
  rw [h]

theorem step2_eq_kv (s : PState) (line k v : String)
    (h : classifyLine line = .kv k v) :
    step2 s line =
      (if k ∈ multiKeys2 then .ok ⟨setVal s.rd k (.str (pyStrip v ++ "\n")), some k⟩
       else if s.ck = some "Jobs" ∧ truthyOpt (getVal s.rd "Jobs") then
         if k ∈ flatJobKeys2 then
           (setLastJobField s.rd k (pyStrip v)).map (fun rd => ⟨rd, s.ck⟩)
         else if k = "Responsibilities" then
           (respInitAppend s.rd
             (if pyStrip v = "" then none else some (pyLstripDashSpace (pyStrip v)))).map
             (fun rd => ⟨rd, some "Responsibilities"⟩)
         else .ok s
       else .ok ⟨setVal s.rd k (.str (pyStrip v)), none⟩) := by
  unfold step2
  rw [h]

theorem step2_eq_plain (s : PState) (line : String)
    (h : classifyLine line = .plain) :
    step2 s line =
      (match s.ck with
       | none => .ok s
       | some c =>
         if c = "Responsibilities" ∧ truthyOpt (getVal s.rd "Jobs") then
           if pyStrip line ≠ "" then
             (respAppend2 s.rd (pyLstripDashSpace (pyStrip line))).map (fun rd => ⟨rd, s.ck⟩)
           else .ok s
         else
           match getVal s.rd c with
           | some tv => .ok ⟨setVal s.rd c (topIAdd tv (line ++ "\n")), s.ck⟩
           | none => .ok s) := by
  unfold step2
  rw [h]

/-! ### Generic fold lemmas -/

theorem foldlM_ok_of_inv {σ α : Type} {f : σ → α → Except String σ} {P : σ → Prop}
    (l : List α) (s : σ) (hs : P s)
    (hf : ∀ s' a, a ∈ l → P s' → ∃ s'', f s' a = .ok s'' ∧ P s'') :
    ∃ s', l.foldlM f s = .ok s' ∧ P s' := by
  induction l generalizing s with
  | nil => exact ⟨s, rfl, hs⟩
  | cons a rest ih =>
    obtain ⟨s1, hstep, hP1⟩ := hf s a (by simp) hs
    obtain ⟨s', hfold, hP'⟩ := ih s1 hP1 (fun s'' b hb hP'' => hf s'' b (by simp [hb]) hP'')
    refine ⟨s', ?_, hP'⟩
    rw [List.foldlM_cons, hstep]
    simpa using hfold

theorem foldlM_ok_left {σ α : Type} {f : σ → α → Except String σ}
    (l1 l2 : List α) (s : σ) (s' : σ)
    (h : (l1 ++ l2).foldlM f s = .ok s') :
    ∃ s1, l1.foldlM f s = .ok s1 ∧ l2.foldlM f s1 = .ok s' := by
  rw [List.foldlM_append] at h
  cases h1 : l1.foldlM f s with
  | ok s1 =>
    refine ⟨s1, rfl, ?_⟩
    rw [h1] at h
    simpa using h
  | error e =>
    rw [h1] at h
    simp only [Bind.bind, Except.bind] at h
    exact Except.noConfusion h

/-! ### Template 1 invariant and totality

`parse_text_for_template_1` never raises: every fallible access is guarded
by the state invariant below, which the line processor preserves. -/

theorem jobs_not_mainKeys1 : "Jobs" ∉ mainKeys1 := by decide

theorem resp_not_mainKeys1 : "Responsibilities" ∉ mainKeys1 := by decide

theorem resp_not_flatJobKeys1 : "Responsibilities" ∉ flatJobKeys1 := by decide

theorem exists_concat_of_ne_nil {α : Type} (l : List α) (h : l ≠ []) :
    ∃ l' a, l = l' ++ [a] := by
  rcases List.eq_nil_or_concat l with rfl | ⟨L, b, hl⟩
  · exact absurd rfl h
  · exact ⟨L, b, by simpa [List.concat_eq_append] using hl⟩

/-- Rebuilding the invariant after an update of the `"Jobs"` entry. -/
theorem Inv1.setJobs (s : PState) (h : Inv1 s) (l' : List JobsElem)
    (hgood : ∀ e ∈ l', GoodJob e) (ck' : Option String)
    (hne : ck' = some "Jobs" ∨ ck' = some "Responsibilities" → l' ≠ [])
    (hmain : ∀ c, ck' = some c → c ∈ mainKeys1 → ∃ w, getVal s.rd c = some (.str w)) :
    Inv1 ⟨setVal s.rd "Jobs" (.jobs l'), ck'⟩ := by
  constructor
  · exact ⟨l', by simp, hgood⟩
  · intro hck l hl
    simp only [getVal_setVal_self, Option.some.injEq, TopVal.jobs.injEq] at hl
    subst hl
    exact hne hck
  · intro k hk
    rcases (hasKey_setVal s.rd "Jobs" k (.jobs l')).mp hk with rfl | hk2
    · exact Or.inl rfl
    · exact h.keys k hk2
  · intro c hc hcm
    have hne2 : "Jobs" ≠ c := fun hh => jobs_not_mainKeys1 (hh ▸ hcm)
    rw [getVal_setVal_ne s.rd "Jobs" c (.jobs l') hne2]
    exact hmain c hc hcm

/-- Rebuilding the invariant after an update of a recognized main key. -/
theorem Inv1.setMain (s : PState) (h : Inv1 s) (k w : String) (hk : k ∈ mainKeys1) :
    Inv1 ⟨setVal s.rd k (.str w), some k⟩ := by
  have hkj : k ≠ "Jobs" := fun hh => jobs_not_mainKeys1 (hh ▸ hk)
  constructor
  · obtain ⟨l, hl, hgood⟩ := h.jobs
    exact ⟨l, by rw [getVal_setVal_ne s.rd k "Jobs" _ hkj]; exact hl, hgood⟩
  · intro hck
    exfalso
    rcases hck with hck | hck <;> simp only [Option.some.injEq] at hck
    · exact jobs_not_mainKeys1 (hck ▸ hk)
    · exact resp_not_mainKeys1 (hck ▸ hk)
  · intro k' hk'
    rcases (hasKey_setVal s.rd k k' (.str w)).mp hk' with rfl | hk2
    · exact Or.inr hk
    · exact h.keys k' hk2
  · intro c hc _
    simp only [Option.some.injEq] at hc
    subst hc
    exact ⟨w, by simp⟩

theorem afterKV1_eq_none (s : PState) (line : String) (hck : s.ck = none) :
    afterKV1 s line = .ok s := by
  unfold afterKV1
  rw [hck]

theorem afterKV1_eq_some (s : PState) (line : String) (c : String) (hck : s.ck = some c) :
    afterKV1 s line =
      (if c ∈ mainKeys1 ∧ c ≠ "FullName" ∧ pyStrip line ≠ "" then
        match getVal s.rd c with
        | some tv => .ok ⟨setVal s.rd c (topIAdd tv ("\n" ++ pyStrip line)), some c⟩
        | none => .error "KeyError"
      else if c = "Responsibilities" ∧ pyStrip line ≠ "" then
        (respAppendIfPresent s.rd (pyStrip line)).map (fun rd => ⟨rd, some c⟩)
      else .ok s) := by
  unfold afterKV1
  rw [hck]

/-- The fallthrough branches of template 1 are total and preserve the
invariant; they also leave `current_key` unchanged. -/
theorem afterKV1_ok (s : PState) (line : String) (h : Inv1 s) :
    ∃ s', afterKV1 s line = .ok s' ∧ Inv1 s' ∧ s'.ck = s.ck := by
  cases hck : s.ck with
  | none => exact ⟨s, afterKV1_eq_none s line hck, h, by rw [hck]⟩
  | some c =>
    rw [afterKV1_eq_some s line c hck]
    by_cases hmb : c ∈ mainKeys1 ∧ c ≠ "FullName" ∧ pyStrip line ≠ ""
    · obtain ⟨w, hw⟩ := h.ckMain c hck hmb.1
      rw [if_pos hmb, hw]
      refine ⟨_, rfl, ?_, rfl⟩
      have hcj : c ≠ "Jobs" := fun hh => jobs_not_mainKeys1 (hh ▸ hmb.1)
      constructor
      · obtain ⟨l, hl, hgood⟩ := h.jobs
        exact ⟨l, by rw [getVal_setVal_ne s.rd c "Jobs" _ hcj]; exact hl, hgood⟩
      · intro hck2
        exfalso
        rcases hck2 with hck2 | hck2 <;> simp only [hck, Option.some.injEq] at hck2
        · exact jobs_not_mainKeys1 (hck2 ▸ hmb.1)
        · exact resp_not_mainKeys1 (hck2 ▸ hmb.1)
      · intro k' hk'
        rcases (hasKey_setVal s.rd c k' _).mp hk' with rfl | hk2
        · exact Or.inr hmb.1
        · exact h.keys k' hk2
      · intro c' hc' _
        simp only [Option.some.injEq] at hc'
        subst hc'
        exact ⟨w ++ ("\n" ++ pyStrip line), by simp [topIAdd]⟩
    · rw [if_neg hmb]
      by_cases hrb : c = "Responsibilities" ∧ pyStrip line ≠ ""
      · rw [if_pos hrb]
        have hl0 := h.jobs
        obtain ⟨l0, hJ0, hgood0⟩ := hl0
        have hne : l0 ≠ [] := h.jobsNe (Or.inr (by rw [hck, hrb.1])) l0 hJ0
        obtain ⟨l', e, rfl⟩ := exists_concat_of_ne_nil l0 hne
        have hge : GoodJob e := hgood0 e (by simp)
        cases e with
        | ch cc => exact absurd hge (by simp [GoodJob])
        | job d =>
          cases hdr : getVal d "Responsibilities" with
          | some v0 =>
            obtain ⟨xs, rfl⟩ := hge v0 hdr
            rw [respAppendIfPresent_ok s.rd l' d xs (pyStrip line) hJ0 hdr]
            refine ⟨_, rfl, ?_, rfl⟩
            refine Inv1.setJobs s h _ ?_ (some c) ?_ ?_
            · intro e he
              rcases List.mem_append.mp he with he | he
              · exact hgood0 e (by simp [he])
              · simp only [List.mem_singleton] at he
                subst he
                intro v hv
                simp only [getVal_setVal_self, Option.some.injEq] at hv
                exact ⟨xs ++ [pyStrip line], hv.symm⟩
            · intro _
              simp
            · intro c' hc' hcm'
              simp only [Option.some.injEq] at hc'
              subst hc'
              exact absurd hcm' (hrb.1 ▸ resp_not_mainKeys1)
          | none =>
            rw [respAppendIfPresent_ok_absent s.rd l' d (pyStrip line) hJ0 hdr]
            have hs : (⟨s.rd, some c⟩ : PState) = s := by rw [← hck]
            exact ⟨⟨s.rd, some c⟩, rfl, by rw [hs]; exact h, rfl⟩
      · rw [if_neg hrb]
        exact ⟨s, rfl, h, by rw [hck]⟩

theorem classifyLine_jobStart_strip (line : String)
    (h : classifyLine line = .jobStart) : pyStrip line = "---JOB START---" := by
  by_cases h1 : pyStrip line = "---JOB START---"
  · exact h1
  · exfalso
    unfold classifyLine at h
    rw [if_neg h1] at h
    by_cases h2 : pyStrip line = "---JOB END---"
    · rw [if_pos h2] at h
      exact LineClass.noConfusion h
    · rw [if_neg h2] at h
      cases hkv : lineKV line with
      | some p => rw [hkv] at h; exact LineClass.noConfusion h
      | none => rw [hkv] at h; exact LineClass.noConfusion h

/-- One line of template 1 is total and preserves the invariant. -/
theorem step1_ok (s : PState) (line : String) (h : Inv1 s) :
    ∃ s', step1 s line = .ok s' ∧ Inv1 s' := by
  cases hc : classifyLine line with
  | jobStart =>
    obtain ⟨l0, hJ0, hgood0⟩ := h.jobs
    refine ⟨⟨setVal s.rd "Jobs" (.jobs (l0 ++ [.job []])), some "Jobs"⟩, ?_, ?_⟩
    · rw [step1_eq_jobStart s line hc, appendNewJob_ok s.rd l0 hJ0]
      rfl
    · refine Inv1.setJobs s h _ ?_ _ (fun _ => by simp) ?_
      · intro e he
        rcases List.mem_append.mp he with he | he
        · exact hgood0 e he
        · simp only [List.mem_singleton] at he
          subst he
          intro v hv
          simp [getVal] at hv
      · intro c hc' hcm
        simp only [Option.some.injEq] at hc'
        subst hc'
        exact absurd hcm jobs_not_mainKeys1
  | jobEnd =>
    refine ⟨⟨s.rd, none⟩, step1_eq_jobEnd s line hc, ?_⟩
    constructor
    · exact h.jobs
    · intro hck
      exfalso
      rcases hck with hck | hck <;> exact Option.noConfusion hck
    · exact h.keys
    · intro c hc'
      exact absurd hc' (by simp)
  | kv k v =>
    rw [step1_eq_kv s line k v hc]
    by_cases hm : k ∈ mainKeys1
    · rw [if_pos hm]
      exact ⟨_, rfl, Inv1.setMain s h k (pyStrip v) hm⟩
    · rw [if_neg hm]
      by_cases hj : s.ck = some "Jobs" ∧ k ∈ jobKeys1
      · rw [if_pos hj]
        obtain ⟨l0, hJ0, hgood0⟩ := h.jobs
        have hne : l0 ≠ [] := h.jobsNe (Or.inl hj.1) l0 hJ0
        obtain ⟨l', e, rfl⟩ := exists_concat_of_ne_nil l0 hne
        have hge : GoodJob e := hgood0 e (by simp)
        cases e with
        | ch cc => exact absurd hge (by simp [GoodJob])
        | job d =>
          have hgoodl' : ∀ e ∈ l', GoodJob e := fun e he => hgood0 e (by simp [he])
          by_cases hf : k ∈ flatJobKeys1
          · rw [if_pos hf, setLastJobField_ok s.rd l' d k (pyStrip v) hJ0]
            refine ⟨_, rfl, ?_⟩
            have hkr : k ≠ "Responsibilities" := fun hh => resp_not_flatJobKeys1 (hh ▸ hf)
            refine Inv1.setJobs s h _ ?_ s.ck (fun _ => by simp) ?_
            · intro e he
              rcases List.mem_append.mp he with he | he
              · exact hgoodl' e he
              · simp only [List.mem_singleton] at he
                subst he
                intro v' hv'
                rw [getVal_setVal_ne d k "Responsibilities" _ hkr] at hv'
                exact (hge : RespOK d) v' hv'
            · intro c hc' hcm
              rw [hj.1] at hc'
              simp only [Option.some.injEq] at hc'
              subst hc'
              exact absurd hcm jobs_not_mainKeys1
          · rw [if_neg hf]
            have hresp : ∀ (arg : Option String),
                (∃ rd', respInitAppend s.rd arg = .ok rd' ∧
                  Inv1 ⟨rd', some "Responsibilities"⟩) := by
              intro arg
              cases hdr : getVal d "Responsibilities" with
              | some v0 =>
                obtain ⟨xs, rfl⟩ := (hge : RespOK d) v0 hdr
                have hinv : ∀ (l2 : List JobsElem) (d2 : JobDict), RespOK d2 →
                    (∀ e ∈ l2, GoodJob e) →
                    Inv1 ⟨setVal s.rd "Jobs" (.jobs (l2 ++ [.job d2])), some "Responsibilities"⟩ := by
                  intro l2 d2 hr2 hg2
                  refine Inv1.setJobs s h _ ?_ _ (fun _ => by simp) ?_
                  · intro e he
                    rcases List.mem_append.mp he with he | he
                    · exact hg2 e he
                    · simp only [List.mem_singleton] at he
                      subst he
                      exact hr2
                  · intro c hc' hcm
                    simp only [Option.some.injEq] at hc'
                    subst hc'
                    exact absurd hcm resp_not_mainKeys1
                cases arg with
                | none =>
                  rw [respInitAppend_ok_none_present s.rd l' d xs hJ0 hdr]
                  exact ⟨_, rfl, hinv l' d hge hgoodl'⟩
                | some a =>
                  rw [respInitAppend_ok_some_present s.rd l' d xs a hJ0 hdr]
                  refine ⟨_, rfl, hinv l' _ ?_ hgoodl'⟩
                  intro v' hv'
                  simp only [getVal_setVal_self, Option.some.injEq] at hv'
                  exact ⟨xs ++ [a], hv'.symm⟩
              | none =>
                have hnk : hasKey d "Responsibilities" = false := by
                  simp [hasKey, hdr]
                have hinv : ∀ (xs2 : List String),
                    Inv1 ⟨setVal s.rd "Jobs"
                      (.jobs (l' ++ [.job (setVal d "Responsibilities" (.strList xs2))])),
                      some "Responsibilities"⟩ := by
                  intro xs2
                  refine Inv1.setJobs s h _ ?_ _ (fun _ => by simp) ?_
                  · intro e he
                    rcases List.mem_append.mp he with he | he
                    · exact hgoodl' e he
                    · simp only [List.mem_singleton] at he
                      subst he
                      intro v' hv'
                      simp only [getVal_setVal_self, Option.some.injEq] at hv'
                      exact ⟨xs2, hv'.symm⟩
                  · intro c hc' hcm
                    simp only [Option.some.injEq] at hc'
                    subst hc'
                    exact absurd hcm resp_not_mainKeys1
                cases arg with
                | none =>
                  rw [respInitAppend_ok_none s.rd l' d hJ0 hnk]
                  exact ⟨_, rfl, hinv []⟩
                | some a =>
                  rw [respInitAppend_ok_some s.rd l' d a hJ0 hnk]
                  exact ⟨_, rfl, hinv [a]⟩
            obtain ⟨rd', hrd', hinv'⟩ := hresp (if pyStrip v = "" then none else some (pyStrip v))
            rw [hrd']
            exact ⟨_, rfl, hinv'⟩
      · rw [if_neg hj]
        obtain ⟨s', hs', hinv', _⟩ := afterKV1_ok s line h
        exact ⟨s', hs', hinv'⟩
  | plain =>
    rw [step1_eq_plain s line hc]
    obtain ⟨s', hs', hinv', _⟩ := afterKV1_ok s line h
    exact ⟨s', hs', hinv'⟩

/-- The invariant holds of the initial state `{"Jobs": []}`. -/
theorem Inv1_init : Inv1 ⟨[("Jobs", .jobs [])], none⟩ := by
  constructor
  · exact ⟨[], by simp [getVal], by simp⟩
  · intro hck
    rcases hck with hck | hck <;> exact Option.noConfusion hck
  · intro k hk
    by_cases h : "Jobs" = k
    · exact Or.inl h.symm
    · simp [hasKey, getVal, h] at hk
  · intro c hc
    exact absurd hc (by simp)

/-- `parse_text_for_template_1` is total: it returns a record on every
input, and that record always binds `"Jobs"` to a list of job dicts and
uses only recognized top-level keys. -/
theorem parse1_total (text : String) :
    ∃ rd, parse_text_for_template_1 text = .ok rd ∧
      (∃ l, getVal rd "Jobs" = some (.jobs l) ∧ ∀ e ∈ l, GoodJob e) ∧
      (∀ k, hasKey rd k = true → k = "Jobs" ∨ k ∈ mainKeys1) := by
  obtain ⟨s', hs', hinv'⟩ := foldlM_ok_of_inv (f := step1) (P := Inv1)
    (splitLines text) ⟨[("Jobs", .jobs [])], none⟩ Inv1_init
    (fun s a _ hP => step1_ok s a hP)
  refine ⟨s'.rd, ?_, hinv'.jobs, hinv'.keys⟩
  unfold parse_text_for_template_1
  rw [hs']
  rfl

/-! ### Refined template 1 lemmas for inputs without a job-start marker -/

theorem classifyLine_kv_lineKV (line k v : String)
    (h : classifyLine line = .kv k v) : lineKV line = some (k, v) := by
  unfold classifyLine at h
  by_cases h1 : pyStrip line = "---JOB START---"
  · rw [if_pos h1] at h
    exact LineClass.noConfusion h
  · rw [if_neg h1] at h
    by_cases h2 : pyStrip line = "---JOB END---"
    · rw [if_pos h2] at h
      exact LineClass.noConfusion h
    · rw [if_neg h2] at h
      cases hkv : lineKV line with
      | some p =>
        rw [hkv] at h
        obtain ⟨k0, v0⟩ := p
        simp only [LineClass.kv.injEq] at h
        rw [h.1, h.2]
      | none =>
        rw [hkv] at h
        exact LineClass.noConfusion h

theorem afterKV1_jobs_eq (s : PState) (line : String) (s' : PState)
    (hs : afterKV1 s line = .ok s')
    (hck : s.ck ≠ some "Responsibilities") :
    getVal s'.rd "Jobs" = getVal s.rd "Jobs" := by
  cases hck2 : s.ck with
  | none =>
    rw [afterKV1_eq_none s line hck2] at hs
    cases hs
    rfl
  | some c =>
    have hcr : c ≠ "Responsibilities" := by
      intro hh
      exact hck (by rw [hck2, hh])
    rw [afterKV1_eq_some s line c hck2] at hs
    by_cases hmb : c ∈ mainKeys1 ∧ c ≠ "FullName" ∧ pyStrip line ≠ ""
    · rw [if_pos hmb] at hs
      have hcj : c ≠ "Jobs" := fun hh => jobs_not_mainKeys1 (hh ▸ hmb.1)
      cases hg : getVal s.rd c with
      | some tv =>
        rw [hg] at hs
        cases hs
        exact getVal_setVal_ne s.rd c "Jobs" _ hcj
      | none =>
        rw [hg] at hs
        exact Except.noConfusion hs
    · rw [if_neg hmb, if_neg (fun hrb => hcr hrb.1)] at hs
      cases hs
      rfl

theorem step1_noStart (s : PState) (line : String) (h : Inv1 s)
    (hck : s.ck ≠ some "Jobs" ∧ s.ck ≠ some "Responsibilities")
    (hline : pyStrip line ≠ "---JOB START---") :
    ∃ s', step1 s line = .ok s' ∧ Inv1 s' ∧
      (s'.ck ≠ some "Jobs" ∧ s'.ck ≠ some "Responsibilities") ∧
      getVal s'.rd "Jobs" = getVal s.rd "Jobs" := by
  cases hc : classifyLine line with
  | jobStart => exact absurd (classifyLine_jobStart_strip line hc) hline
  | jobEnd =>
    refine ⟨⟨s.rd, none⟩, step1_eq_jobEnd s line hc, ?_, by simp, rfl⟩
    constructor
    · exact h.jobs
    · intro hck2
      exfalso
      rcases hck2 with hck2 | hck2 <;> exact Option.noConfusion hck2
    · exact h.keys
    · intro c hc'
      exact absurd hc' (by simp)
  | kv k v =>
    rw [step1_eq_kv s line k v hc]
    by_cases hm : k ∈ mainKeys1
    · rw [if_pos hm]
      have hkj : k ≠ "Jobs" := fun hh => jobs_not_mainKeys1 (hh ▸ hm)
      have hkr : k ≠ "Responsibilities" := fun hh => resp_not_mainKeys1 (hh ▸ hm)
      refine ⟨_, rfl, Inv1.setMain s h k (pyStrip v) hm, ⟨?_, ?_⟩, ?_⟩
      · simpa using hkj
      · simpa using hkr
      · exact getVal_setVal_ne s.rd k "Jobs" _ hkj
    · rw [if_neg hm, if_neg (fun hj => hck.1 hj.1)]
      obtain ⟨s', hs', hinv', hckeq⟩ := afterKV1_ok s line h
      refine ⟨s', hs', hinv', ?_, afterKV1_jobs_eq s line s' hs' hck.2⟩
      rw [hckeq]
      exact hck
  | plain =>
    rw [step1_eq_plain s line hc]
    obtain ⟨s', hs', hinv', hckeq⟩ := afterKV1_ok s line h
    refine ⟨s', hs', hinv', ?_, afterKV1_jobs_eq s line s' hs' hck.2⟩
    rw [hckeq]
    exact hck

theorem fold1_noStart (lines : List String) (s : PState) (h : Inv1 s)
    (hck : s.ck ≠ some "Jobs" ∧ s.ck ≠ some "Responsibilities")
    (hl : ∀ ℓ ∈ lines, pyStrip ℓ ≠ "---JOB START---") :
    ∃ s', lines.foldlM step1 s = .ok s' ∧ Inv1 s' ∧
      (s'.ck ≠ some "Jobs" ∧ s'.ck ≠ some "Responsibilities") ∧
      getVal s'.rd "Jobs" = getVal s.rd "Jobs" := by
  obtain ⟨s', hs', hP⟩ := foldlM_ok_of_inv (f := step1)
    (P := fun s2 => Inv1 s2 ∧ (s2.ck ≠ some "Jobs" ∧ s2.ck ≠ some "Responsibilities") ∧
      getVal s2.rd "Jobs" = getVal s.rd "Jobs")
    lines s ⟨h, hck, rfl⟩
    (fun s2 a ha hP2 => by
      obtain ⟨s3, hs3, hinv3, hck3, hjobs3⟩ :=
        step1_noStart s2 a hP2.1 hP2.2.1 (hl a ha)
      exact ⟨s3, hs3, hinv3, hck3, by rw [hjobs3, hP2.2.2]⟩)
  exact ⟨s', hs', hP.1, hP.2.1, hP.2.2⟩

/-! ### Template 2 lemmas -/

theorem jobs_not_multiKeys2 : "Jobs" ∉ multiKeys2 := by decide

theorem resp_not_multiKeys2 : "Responsibilities" ∉ multiKeys2 := by decide

theorem step2_eq_plain_none (s : PState) (line : String)
    (hc : classifyLine line = .plain) (hck : s.ck = none) :
    step2 s line = .ok s := by
  rw [step2_eq_plain s line hc, hck]

theorem step2_eq_plain_some (s : PState) (line : String) (c : String)
    (hc : classifyLine line = .plain) (hck : s.ck = some c) :
    step2 s line =
      (if c = "Responsibilities" ∧ truthyOpt (getVal s.rd "Jobs") then
        if pyStrip line ≠ "" then
          (respAppend2 s.rd (pyLstripDashSpace (pyStrip line))).map (fun rd => ⟨rd, some c⟩)
        else .ok s
      else
        match getVal s.rd c with
        | some tv => .ok ⟨setVal s.rd c (topIAdd tv (line ++ "\n")), some c⟩
        | none => .ok s) := by
  rw [step2_eq_plain s line hc, hck]

theorem step2_noStart (s : PState) (line : String) (h : NoJobs2 s)
    (hline : pyStrip line ≠ "---JOB START---") :
    ∃ s', step2 s line = .ok s' ∧ NoJobs2 s' := by
  obtain ⟨hjv, hckj, hckr⟩ := h
  cases hc : classifyLine line with
  | jobStart => exact absurd (classifyLine_jobStart_strip line hc) hline
  | jobEnd =>
    exact ⟨⟨s.rd, none⟩, step2_eq_jobEnd s line hc, hjv, by simp, by simp⟩
  | kv k v =>
    rw [step2_eq_kv s line k v hc]
    by_cases hm : k ∈ multiKeys2
    · rw [if_pos hm]
      have hkj : k ≠ "Jobs" := fun hh => jobs_not_multiKeys2 (hh ▸ hm)
      have hkr : k ≠ "Responsibilities" := fun hh => resp_not_multiKeys2 (hh ▸ hm)
      refine ⟨_, rfl, ?_, by simpa using hkj, by simpa using hkr⟩
      rw [getVal_setVal_ne s.rd k "Jobs" _ hkj]
      exact hjv
    · rw [if_neg hm, if_neg (fun hj => hckj hj.1)]
      by_cases hkj : k = "Jobs"
      · subst hkj
        exact ⟨_, rfl, Or.inr ⟨pyStrip v, by simp⟩, by simp, by simp⟩
      · refine ⟨_, rfl, ?_, by simp, by simp⟩
        rw [getVal_setVal_ne s.rd k "Jobs" _ hkj]
        exact hjv
  | plain =>
    cases hck : s.ck with
    | none => exact ⟨s, step2_eq_plain_none s line hc hck, hjv, hckj, hckr⟩
    | some c =>
      have hcr : c ≠ "Responsibilities" := by
        intro hh
        exact hckr (by rw [hck, hh])
      have hcj : c ≠ "Jobs" := by
        intro hh
        exact hckj (by rw [hck, hh])
      rw [step2_eq_plain_some s line c hc hck, if_neg (fun hrb => hcr hrb.1)]
      cases hg : getVal s.rd c with
      | some tv =>
        refine ⟨_, rfl, ?_, by simpa using hcj, by simpa using hcr⟩
        rw [getVal_setVal_ne s.rd c "Jobs" _ hcj]
        exact hjv
      | none => exact ⟨s, rfl, hjv, hckj, hckr⟩

theorem fold2_noStart (lines : List String) (s : PState) (h : NoJobs2 s)
    (hl : ∀ ℓ ∈ lines, pyStrip ℓ ≠ "---JOB START---") :
    ∃ s', lines.foldlM step2 s = .ok s' ∧ NoJobs2 s' := by
  exact foldlM_ok_of_inv (f := step2) (P := NoJobs2) lines s h
    (fun s2 a ha hP2 => step2_noStart s2 a hP2 (hl a ha))

/-! ### Shape lemmas: every successful step only writes through `setVal` -/

theorem startJob2_shape (rd rd' : Record) (h : startJob2 rd = .ok rd') :
    ∃ x, rd' = setVal rd "Jobs" x := by
  unfold startJob2 at h
  split at h
  · exact ⟨_, (Except.ok.inj h).symm⟩
  · exact ⟨_, (Except.ok.inj h).symm⟩
  · exact Except.noConfusion h

theorem setLastJobField_shape (rd : Record) (k v : String) (rd' : Record)
    (h : setLastJobField rd k v = .ok rd') :
    ∃ x, rd' = setVal rd "Jobs" x := by
  unfold setLastJobField at h
  split at h
  · split at h
    · exact ⟨_, (Except.ok.inj h).symm⟩
    · exact Except.noConfusion h
    · exact Except.noConfusion h
  · split at h <;> exact Except.noConfusion h
  · exact Except.noConfusion h

theorem respInitAppend_shape (rd : Record) (a : Option String) (rd' : Record)
    (h : respInitAppend rd a = .ok rd') :
    ∃ x, rd' = setVal rd "Jobs" x := by
  unfold respInitAppend at h
  split at h
  · split at h
    · split at h
      · exact ⟨_, (Except.ok.inj h).symm⟩
      · split at h
        · exact ⟨_, (Except.ok.inj h).symm⟩
        · exact Except.noConfusion h
        · exact Except.noConfusion h
    · split at h <;> exact Except.noConfusion h
    · exact Except.noConfusion h
  · split at h <;> exact Except.noConfusion h
  · exact Except.noConfusion h

theorem respAppend2_shape (rd : Record) (x : String) (rd' : Record)
    (h : respAppend2 rd x = .ok rd') :
    ∃ y, rd' = setVal rd "Jobs" y := by
  unfold respAppend2 at h
  split at h
  · split at h
    · split at h
      · exact ⟨_, (Except.ok.inj h).symm⟩
      · exact Except.noConfusion h
      · exact Except.noConfusion h
    · exact Except.noConfusion h
    · exact Except.noConfusion h
  · split at h <;> exact Except.noConfusion h
  · exact Except.noConfusion h

theorem hasKey_setVal_mono (d : List (String × α)) (k k' : String) (v : α)
    (h : hasKey d k' = true) : hasKey (setVal d k v) k' = true :=
  (hasKey_setVal d k k' v).mpr (Or.inr h)

/-- A successful template 2 step never removes a key from the record. -/
theorem step2_hasKey_mono (s : PState) (line : String) (s' : PState) (k : String)
    (hs : step2 s line = .ok s') (hk : hasKey s.rd k = true) :
    hasKey s'.rd k = true := by
  cases hc : classifyLine line with
  | jobStart =>
    rw [step2_eq_jobStart s line hc] at hs
    cases hj : startJob2 s.rd with
    | ok rd2 =>
      rw [hj] at hs
      cases hs
      obtain ⟨x, rfl⟩ := startJob2_shape s.rd rd2 hj
      exact hasKey_setVal_mono s.rd "Jobs" k x hk
    | error e =>
      rw [hj] at hs
      exact Except.noConfusion hs
  | jobEnd =>
    rw [step2_eq_jobEnd s line hc] at hs
    cases hs
    exact hk
  | kv k2 v =>
    rw [step2_eq_kv s line k2 v hc] at hs
    by_cases hm : k2 ∈ multiKeys2
    · rw [if_pos hm] at hs
      cases hs
      exact hasKey_setVal_mono s.rd k2 k _ hk
    · rw [if_neg hm] at hs
      by_cases hj : s.ck = some "Jobs" ∧ truthyOpt (getVal s.rd "Jobs")
      · rw [if_pos hj] at hs
        by_cases hf : k2 ∈ flatJobKeys2
        · rw [if_pos hf] at hs
          cases hsl : setLastJobField s.rd k2 (pyStrip v) with
          | ok rd2 =>
            rw [hsl] at hs
            cases hs
            obtain ⟨x, rfl⟩ := setLastJobField_shape s.rd k2 (pyStrip v) rd2 hsl
            exact hasKey_setVal_mono s.rd "Jobs" k x hk
          | error e =>
            rw [hsl] at hs
            exact Except.noConfusion hs
        · rw [if_neg hf] at hs
          by_cases hr : k2 = "Responsibilities"
          · rw [if_pos hr] at hs
            cases hra : respInitAppend s.rd
                (if pyStrip v = "" then none else some (pyLstripDashSpace (pyStrip v))) with
            | ok rd2 =>
              rw [hra] at hs
              cases hs
              obtain ⟨x, rfl⟩ := respInitAppend_shape s.rd _ rd2 hra
              exact hasKey_setVal_mono s.rd "Jobs" k x hk
            | error e =>
              rw [hra] at hs
              exact Except.noConfusion hs
          · rw [if_neg hr] at hs
            cases hs
            exact hk
      · rw [if_neg hj] at hs
        cases hs
        exact hasKey_setVal_mono s.rd k2 k _ hk
  | plain =>
    cases hck : s.ck with
    | none =>
      rw [step2_eq_plain_none s line hc hck] at hs
      cases hs
      exact hk
    | some c =>
      rw [step2_eq_plain_some s line c hc hck] at hs
      by_cases hrb : c = "Responsibilities" ∧ truthyOpt (getVal s.rd "Jobs")
      · rw [if_pos hrb] at hs
        by_cases hne : pyStrip line ≠ ""
        · rw [if_pos hne] at hs
          cases hra : respAppend2 s.rd (pyLstripDashSpace (pyStrip line)) with
          | ok rd2 =>
            rw [hra] at hs
            cases hs
            obtain ⟨x, rfl⟩ := respAppend2_shape s.rd _ rd2 hra
            exact hasKey_setVal_mono s.rd "Jobs" k x hk
          | error e =>
            rw [hra] at hs
            exact Except.noConfusion hs
        · rw [if_neg hne] at hs
          cases hs
          exact hk
      · rw [if_neg hrb] at hs
        cases hg : getVal s.rd c with
        | some tv =>
          rw [hg] at hs
          cases hs
          exact hasKey_setVal_mono s.rd c k _ hk
        | none =>
          rw [hg] at hs
          cases hs
          exact hk

theorem fold2_hasKey_mono (lines : List String) (s s' : PState) (k : String)
    (hs : lines.foldlM step2 s = .ok s') (hk : hasKey s.rd k = true) :
    hasKey s'.rd k = true := by
  induction lines generalizing s with
  | nil =>
    cases hs
    exact hk
  | cons a rest ih =>
    rw [List.foldlM_cons] at hs
    cases ha : step2 s a with
    | ok s1 =>
      rw [ha] at hs
      simp only [Bind.bind, Except.bind] at hs
      exact ih s1 hs (step2_hasKey_mono s a s1 k ha hk)
    | error e =>
      rw [ha] at hs
      simp only [Bind.bind, Except.bind] at hs
      exact Except.noConfusion hs

/-- Invariant of template 2 when no line mentions the `"Jobs"` key: the
record never acquires a `"Jobs"` entry. -/
theorem step2_noJobsKey (s : PState) (line : String)
    (h : hasKey s.rd "Jobs" = false)
    (hline : pyStrip line ≠ "---JOB START---")
    (hkv : ∀ k v, lineKV line = some (k, v) → k ≠ "Jobs") :
    ∃ s', step2 s line = .ok s' ∧ hasKey s'.rd "Jobs" = false := by
  have hgv : getVal s.rd "Jobs" = none := by
    cases hg : getVal s.rd "Jobs" with
    | none => rfl
    | some v =>
      rw [hasKey, hg] at h
      simp at h
  cases hc : classifyLine line with
  | jobStart => exact absurd (classifyLine_jobStart_strip line hc) hline
  | jobEnd => exact ⟨⟨s.rd, none⟩, step2_eq_jobEnd s line hc, h⟩
  | kv k v =>
    have hkj : k ≠ "Jobs" := hkv k v (classifyLine_kv_lineKV line k v hc)
    rw [step2_eq_kv s line k v hc]
    by_cases hm : k ∈ multiKeys2
    · rw [if_pos hm]
      refine ⟨_, rfl, ?_⟩
      rw [hasKey, getVal_setVal_ne s.rd k "Jobs" _ hkj, ← hasKey]
      exact h
    · rw [if_neg hm, if_neg (by rintro ⟨h1, h2⟩; rw [hgv] at h2; simp [truthyOpt] at h2)]
      refine ⟨_, rfl, ?_⟩
      rw [hasKey, getVal_setVal_ne s.rd k "Jobs" _ hkj, ← hasKey]
      exact h
  | plain =>
    cases hck : s.ck with
    | none => exact ⟨s, step2_eq_plain_none s line hc hck, h⟩
    | some c =>
      rw [step2_eq_plain_some s line c hc hck,
        if_neg (by rintro ⟨h1, h2⟩; rw [hgv] at h2; simp [truthyOpt] at h2)]
      cases hg : getVal s.rd c with
      | some tv =>
        have hcj : c ≠ "Jobs" := by
          intro hh
          rw [hh, hgv] at hg
          exact Option.noConfusion hg
        refine ⟨_, rfl, ?_⟩
        rw [hasKey, getVal_setVal_ne s.rd c "Jobs" _ hcj, ← hasKey]
        exact h
      | none => exact ⟨s, rfl, h⟩

/-! ### Well-formed job blocks and their processing -/

theorem setVal_getVal_self (d : List (String × α)) (k : String) (v : α)
    (h : getVal d k = some v) : setVal d k v = d := by
  induction d with
  | nil => simp [getVal] at h
  | cons p rest ih =>
    obtain ⟨k', w⟩ := p
    by_cases h2 : k' = k
    · subst h2
      have hw : w = v := by simpa [getVal] using h
      subst hw
      simp [setVal]
    · simp only [getVal, if_neg h2] at h
      simp [setVal, h2, ih h]

theorem hasKey_append_singleton (d : List (String × α)) (k k2 : String) (v : α)
    (h : hasKey d k2 = false) (hne : k ≠ k2) : hasKey (d ++ [(k, v)]) k2 = false := by
  induction d with
  | nil => simp [hasKey, getVal, hne]
  | cons p rest ih =>
    obtain ⟨k', w⟩ := p
    simp only [hasKey, getVal] at h ⊢
    by_cases h2 : k' = k2
    · simp [h2] at h
    · simp only [if_neg h2] at h ⊢
      exact ih h

theorem foldlM_cons_ok {σ α : Type} {f : σ → α → Except String σ} (a : α) (l : List α)
    (s s1 : σ) (h : f s a = .ok s1) :
    (a :: l).foldlM f s = l.foldlM f s1 := by
  rw [List.foldlM_cons, h]
  rfl

theorem foldlM_append_ok {σ α : Type} {f : σ → α → Except String σ} (l1 l2 : List α)
    (s s1 : σ) (h : l1.foldlM f s = .ok s1) :
    (l1 ++ l2).foldlM f s = l2.foldlM f s1 := by
  rw [List.foldlM_append, h]
  rfl

theorem classifyLine_eq_kv_of (line k v : String) (hkv : lineKV line = some (k, v))
    (h1 : pyStrip line ≠ "---JOB START---") (h2 : pyStrip line ≠ "---JOB END---") :
    classifyLine line = .kv k v := by
  unfold classifyLine
  rw [if_neg h1, if_neg h2, hkv]

theorem classifyLine_start : classifyLine "---JOB START---" = .jobStart := by decide

theorem classifyLine_jobEnd : classifyLine "---JOB END---" = .jobEnd := by decide

theorem classifyLine_respHeader :
    classifyLine "Responsibilities:" = .kv "Responsibilities" "" := by decide

theorem flat1_not_main : ∀ k ∈ flatJobKeys1, k ∉ mainKeys1 := by decide

theorem flat1_mem_jobKeys1 : ∀ k ∈ flatJobKeys1, k ∈ jobKeys1 := by decide

theorem resp_mem_jobKeys1 : "Responsibilities" ∈ jobKeys1 := by decide

theorem resp_not_flatJobKeys2 : "Responsibilities" ∉ flatJobKeys2 := by decide

theorem flat2_not_multi : ∀ k ∈ flatJobKeys2, k ∉ multiKeys2 := by decide

theorem truthy_concat (l : List JobsElem) (e : JobsElem) :
    truthyOpt (some (.jobs (l ++ [e]))) = true := by
  simp [truthyOpt]

theorem truthy_getVal_concat (rd : Record) (l : List JobsElem) (e : JobsElem)
    (hJ : getVal rd "Jobs" = some (.jobs (l ++ [e]))) :
    truthyOpt (getVal rd "Jobs") = true := by
  rw [hJ]
  exact truthy_concat l e

/-- Processing the flat field lines of a block under template 1. -/
theorem flats1_fold (fl : List (String × String × String)) (rd : Record)
    (l : List JobsElem) (dAcc : JobDict)
    (hJ : getVal rd "Jobs" = some (.jobs (l ++ [.job dAcc])))
    (hwf : ∀ x ∈ fl, WFFlatLine flatJobKeys1 x)
    (hnodup : (fl.map (fun x => x.2.1)).Nodup)
    (hdisj : ∀ x ∈ fl, hasKey dAcc x.2.1 = false) :
    (fl.map (fun x => x.1)).foldlM step1 ⟨rd, some "Jobs"⟩ =
      .ok ⟨setVal rd "Jobs" (.jobs (l ++ [.job (dAcc ++
        fl.map (fun x => (x.2.1, JVal.str (pyStrip x.2.2))))])), some "Jobs"⟩ := by
  induction fl generalizing rd dAcc with
  | nil =>
    simp only [List.map_nil, List.foldlM_nil, List.append_nil]
    rw [setVal_getVal_self rd "Jobs" _ hJ]
    rfl
  | cons x rest ih =>
    obtain ⟨hkv, hm1, hm2, hks⟩ := hwf x (by simp)
    have hcls : classifyLine x.1 = .kv x.2.1 x.2.2 :=
      classifyLine_eq_kv_of x.1 x.2.1 x.2.2 hkv hm1 hm2
    have hstep : step1 ⟨rd, some "Jobs"⟩ x.1 =
        .ok ⟨setVal rd "Jobs" (.jobs (l ++
          [.job (setVal dAcc x.2.1 (.str (pyStrip x.2.2)))])), some "Jobs"⟩ := by
      rw [step1_eq_kv ⟨rd, some "Jobs"⟩ x.1 x.2.1 x.2.2 hcls,
        if_neg (flat1_not_main x.2.1 hks),
        if_pos ⟨rfl, flat1_mem_jobKeys1 x.2.1 hks⟩,
        if_pos hks,
        setLastJobField_ok rd l dAcc x.2.1 (pyStrip x.2.2) hJ]
      rfl
    rw [List.map_cons, foldlM_cons_ok _ _ _ _ hstep]
    rw [setVal_eq_append dAcc x.2.1 _ (hdisj x (by simp))]
    have hnodup2 := hnodup
    rw [List.map_cons, List.nodup_cons] at hnodup2
    have hd2 : ∀ y ∈ rest, hasKey (dAcc ++ [(x.2.1, JVal.str (pyStrip x.2.2))]) y.2.1 = false := by
      intro y hy
      refine hasKey_append_singleton dAcc x.2.1 y.2.1 _ (hdisj y (by simp [hy])) ?_
      intro hh
      exact hnodup2.1 (hh ▸ List.mem_map_of_mem (fun z => z.2.1) hy)
    have hrec := ih (setVal rd "Jobs"
        (.jobs (l ++ [.job (dAcc ++ [(x.2.1, JVal.str (pyStrip x.2.2))])])))
      (dAcc ++ [(x.2.1, JVal.str (pyStrip x.2.2))]) (by simp)
      (fun y hy => hwf y (by simp [hy])) hnodup2.2 hd2
    rw [hrec, setVal_setVal_self]
    simp [List.append_assoc]

/-- Processing the bullet lines of a block under template 1: each stripped
line is appended, dash prefix kept. -/
theorem bullets1_fold (bl : List String) (rd : Record) (l : List JobsElem)
    (d : JobDict) (xs : List String)
    (hJ : getVal rd "Jobs" = some (.jobs (l ++ [.job d])))
    (hresp : getVal d "Responsibilities" = some (.strList xs))
    (hwf : ∀ ℓ ∈ bl, WFBulletLine ℓ) :
    bl.foldlM step1 ⟨rd, some "Responsibilities"⟩ =
      .ok ⟨setVal rd "Jobs" (.jobs (l ++ [.job (setVal d "Responsibilities"
        (.strList (xs ++ bl.map pyStrip)))])), some "Responsibilities"⟩ := by
  induction bl generalizing rd d xs with
  | nil =>
    rw [List.foldlM_nil]
    rw [List.map_nil, List.append_nil,
      setVal_getVal_self d "Responsibilities" _ hresp, setVal_getVal_self rd "Jobs" _ hJ]
    rfl
  | cons ℓ rest ih =>
    obtain ⟨hdash, hm1, hm2⟩ := hwf ℓ (by simp)
    have hcls : classifyLine ℓ = .plain := classifyLine_of_dash ℓ hdash hm1 hm2
    have hne : pyStrip ℓ ≠ "" := startsWithDash_ne_empty _ hdash
    have hstep : step1 ⟨rd, some "Responsibilities"⟩ ℓ =
        .ok ⟨setVal rd "Jobs" (.jobs (l ++ [.job (setVal d "Responsibilities"
          (.strList (xs ++ [pyStrip ℓ])))])), some "Responsibilities"⟩ := by
      rw [step1_eq_plain _ ℓ hcls,
        afterKV1_eq_some ⟨rd, some "Responsibilities"⟩ ℓ "Responsibilities" rfl,
        if_neg (fun hmb => resp_not_mainKeys1 hmb.1),
        if_pos ⟨rfl, hne⟩,
        respAppendIfPresent_ok rd l d xs (pyStrip ℓ) hJ hresp]
      rfl
    rw [foldlM_cons_ok _ _ _ _ hstep]
    have hrec := ih (setVal rd "Jobs" (.jobs (l ++ [.job (setVal d "Responsibilities"
        (.strList (xs ++ [pyStrip ℓ])))])))
      (setVal d "Responsibilities" (.strList (xs ++ [pyStrip ℓ])))
      (xs ++ [pyStrip ℓ]) (by simp) (by simp)
      (fun y hy => hwf y (by simp [hy]))
    rw [hrec, setVal_setVal_self, setVal_setVal_self]
    simp [List.append_assoc]

/-- The `"Responsibilities"` key is absent from the flat dict of a
well-formed block. -/
theorem jobFlatDict_no_resp (b : JobBlock) (hwf : WFBlock flatJobKeys1 b ∨ WFBlock flatJobKeys2 b) :
    hasKey (jobFlatDict b) "Responsibilities" = false := by
  refine hasKey_eq_false_of_keys _ _ ?_
  intro p hp
  unfold jobFlatDict at hp
  obtain ⟨x, hx, rfl⟩ := List.mem_map.mp hp
  rcases hwf with hwf | hwf
  · have := (hwf.1 x hx).2.2.2
    intro hh
    exact resp_not_flatJobKeys1 (hh ▸ this)
  · have := (hwf.1 x hx).2.2.2
    intro hh
    exact resp_not_flatJobKeys2 (hh ▸ this)

/-- Unfolding equation for `jobFlatDict`. -/
theorem jobFlatDict_eq (b : JobBlock) :
    List.map (fun x => (x.2.1, JVal.str (pyStrip x.2.2))) b.flats = jobFlatDict b := rfl

/-- Processing one whole well-formed block under template 1 appends exactly
one job dict, holding the block's fields, and clears `current_key`. -/
theorem block1_fold (b : JobBlock) (s : PState) (l : List JobsElem)
    (hJ : getVal s.rd "Jobs" = some (.jobs l))
    (hwf : WFBlock flatJobKeys1 b) :
    (blockLines b).foldlM step1 s =
      .ok ⟨setVal s.rd "Jobs" (.jobs (l ++ [.job (jobDict1 b)])), none⟩ := by
  obtain ⟨hwff, hwfn, hwfb⟩ := hwf
  have hstart : step1 s "---JOB START---" =
      .ok ⟨setVal s.rd "Jobs" (.jobs (l ++ [.job []])), some "Jobs"⟩ := by
    rw [step1_eq_jobStart s _ classifyLine_start, appendNewJob_ok s.rd l hJ]
    rfl
  unfold blockLines
  rw [foldlM_cons_ok _ _ _ _ hstart]
  rw [foldlM_append_ok _ _ _ _
    (flats1_fold b.flats _ l [] (by simp) hwff hwfn (fun x _ => by simp [hasKey, getVal]))]
  rw [jobFlatDict_eq, List.nil_append, setVal_setVal_self]
  have hnoresp := jobFlatDict_no_resp b (Or.inl ⟨hwff, hwfn, hwfb⟩)
  have hrespstep : step1 (⟨setVal s.rd "Jobs" (.jobs (l ++ [.job (jobFlatDict b)])),
        some "Jobs"⟩ : PState) "Responsibilities:" =
      .ok ⟨setVal (setVal s.rd "Jobs" (.jobs (l ++ [.job (jobFlatDict b)]))) "Jobs"
        (.jobs (l ++ [.job (setVal (jobFlatDict b) "Responsibilities" (.strList []))])),
        some "Responsibilities"⟩ := by
    rw [step1_eq_kv _ _ _ _ classifyLine_respHeader,
      if_neg resp_not_mainKeys1,
      if_pos ⟨rfl, resp_mem_jobKeys1⟩,
      if_neg resp_not_flatJobKeys1,
      show (if pyStrip "" = "" then (none : Option String) else some (pyStrip "")) = none from
        by decide,
      respInitAppend_ok_none _ l (jobFlatDict b) (by simp) hnoresp]
    rfl
  rw [foldlM_cons_ok _ _ _ _ hrespstep, setVal_setVal_self]
  rw [foldlM_append_ok _ _ _ _
    (bullets1_fold b.bullets _ l (setVal (jobFlatDict b) "Responsibilities" (.strList []))
      [] (by simp) (by simp) hwfb)]
  rw [setVal_setVal_self, setVal_setVal_self, List.nil_append]
  rw [foldlM_cons_ok _ _ _ _ (step1_eq_jobEnd _ "---JOB END---" classifyLine_jobEnd),
    List.foldlM_nil]
  rw [setVal_eq_append (jobFlatDict b) "Responsibilities" _ hnoresp]
  rfl

/-- Processing a list of well-formed blocks under template 1. -/
theorem blocks1_fold (bs : List JobBlock) (s : PState) (l : List JobsElem)
    (hJ : getVal s.rd "Jobs" = some (.jobs l))
    (hwf : ∀ b ∈ bs, WFBlock flatJobKeys1 b) :
    ∃ s', (bs.flatMap blockLines).foldlM step1 s = .ok s' ∧
      getVal s'.rd "Jobs" =
        some (.jobs (l ++ bs.map (fun b => JobsElem.job (jobDict1 b)))) := by
  induction bs generalizing s l with
  | nil => exact ⟨s, by rw [List.flatMap_nil, List.foldlM_nil]; rfl, by simpa using hJ⟩
  | cons b rest ih =>
    rw [List.flatMap_cons]
    rw [foldlM_append_ok _ _ _ _ (block1_fold b s l hJ (hwf b (by simp)))]
    obtain ⟨s', hs', hJ'⟩ := ih ⟨setVal s.rd "Jobs" (.jobs (l ++ [.job (jobDict1 b)])), none⟩
      (l ++ [.job (jobDict1 b)]) (by simp) (fun b2 hb2 => hwf b2 (by simp [hb2]))
    refine ⟨s', hs', ?_⟩
    rw [hJ']
    simp [List.append_assoc]

/-- Processing the flat field lines of a block under template 2. -/
theorem flats2_fold (fl : List (String × String × String)) (rd : Record)
    (l : List JobsElem) (dAcc : JobDict)
    (hJ : getVal rd "Jobs" = some (.jobs (l ++ [.job dAcc])))
    (hwf : ∀ x ∈ fl, WFFlatLine flatJobKeys2 x)
    (hnodup : (fl.map (fun x => x.2.1)).Nodup)
    (hdisj : ∀ x ∈ fl, hasKey dAcc x.2.1 = false) :
    (fl.map (fun x => x.1)).foldlM step2 ⟨rd, some "Jobs"⟩ =
      .ok ⟨setVal rd "Jobs" (.jobs (l ++ [.job (dAcc ++
        fl.map (fun x => (x.2.1, JVal.str (pyStrip x.2.2))))])), some "Jobs"⟩ := by
  induction fl generalizing rd dAcc with
  | nil =>
    simp only [List.map_nil, List.foldlM_nil, List.append_nil]
    rw [setVal_getVal_self rd "Jobs" _ hJ]
    rfl
  | cons x rest ih =>
    obtain ⟨hkv, hm1, hm2, hks⟩ := hwf x (by simp)
    have hcls : classifyLine x.1 = .kv x.2.1 x.2.2 :=
      classifyLine_eq_kv_of x.1 x.2.1 x.2.2 hkv hm1 hm2
    have hstep : step2 ⟨rd, some "Jobs"⟩ x.1 =
        .ok ⟨setVal rd "Jobs" (.jobs (l ++
          [.job (setVal dAcc x.2.1 (.str (pyStrip x.2.2)))])), some "Jobs"⟩ := by
      rw [step2_eq_kv ⟨rd, some "Jobs"⟩ x.1 x.2.1 x.2.2 hcls,
        if_neg (flat2_not_multi x.2.1 hks),
        if_pos ⟨rfl, truthy_getVal_concat rd l _ hJ⟩,
        if_pos hks,
        setLastJobField_ok rd l dAcc x.2.1 (pyStrip x.2.2) hJ]
      rfl
    rw [List.map_cons, foldlM_cons_ok _ _ _ _ hstep]
    rw [setVal_eq_append dAcc x.2.1 _ (hdisj x (by simp))]
    have hnodup2 := hnodup
    rw [List.map_cons, List.nodup_cons] at hnodup2
    have hd2 : ∀ y ∈ rest, hasKey (dAcc ++ [(x.2.1, JVal.str (pyStrip x.2.2))]) y.2.1 = false := by
      intro y hy
      refine hasKey_append_singleton dAcc x.2.1 y.2.1 _ (hdisj y (by simp [hy])) ?_
      intro hh
      exact hnodup2.1 (hh ▸ List.mem_map_of_mem (fun z => z.2.1) hy)
    have hrec := ih (setVal rd "Jobs"
        (.jobs (l ++ [.job (dAcc ++ [(x.2.1, JVal.str (pyStrip x.2.2))])])))
      (dAcc ++ [(x.2.1, JVal.str (pyStrip x.2.2))]) (by simp)
      (fun y hy => hwf y (by simp [hy])) hnodup2.2 hd2
    rw [hrec, setVal_setVal_self]
    simp [List.append_assoc]

/-- Processing the bullet lines of a block under template 2: each stripped
line is appended with its leading dashes and spaces removed. -/
theorem bullets2_fold (bl : List String) (rd : Record) (l : List JobsElem)
    (d : JobDict) (xs : List String)
    (hJ : getVal rd "Jobs" = some (.jobs (l ++ [.job d])))
    (hresp : getVal d "Responsibilities" = some (.strList xs))
    (hwf : ∀ ℓ ∈ bl, WFBulletLine ℓ) :
    bl.foldlM step2 ⟨rd, some "Responsibilities"⟩ =
      .ok ⟨setVal rd "Jobs" (.jobs (l ++ [.job (setVal d "Responsibilities"
        (.strList (xs ++ bl.map (fun ℓ => pyLstripDashSpace (pyStrip ℓ)))))])),
        some "Responsibilities"⟩ := by
  induction bl generalizing rd d xs with
  | nil =>
    rw [List.foldlM_nil]
    rw [List.map_nil, List.append_nil,
      setVal_getVal_self d "Responsibilities" _ hresp, setVal_getVal_self rd "Jobs" _ hJ]
    rfl
  | cons ℓ rest ih =>
    obtain ⟨hdash, hm1, hm2⟩ := hwf ℓ (by simp)
    have hcls : classifyLine ℓ = .plain := classifyLine_of_dash ℓ hdash hm1 hm2
    have hne : pyStrip ℓ ≠ "" := startsWithDash_ne_empty _ hdash
    have hstep : step2 ⟨rd, some "Responsibilities"⟩ ℓ =
        .ok ⟨setVal rd "Jobs" (.jobs (l ++ [.job (setVal d "Responsibilities"
          (.strList (xs ++ [pyLstripDashSpace (pyStrip ℓ)])))])), some "Responsibilities"⟩ := by
      rw [step2_eq_plain_some ⟨rd, some "Responsibilities"⟩ ℓ "Responsibilities" hcls rfl,
        if_pos ⟨rfl, truthy_getVal_concat rd l _ hJ⟩,
        if_pos hne,
        respAppend2_ok rd l d xs (pyLstripDashSpace (pyStrip ℓ)) hJ hresp]
      rfl
    rw [foldlM_cons_ok _ _ _ _ hstep]
    have hrec := ih (setVal rd "Jobs" (.jobs (l ++ [.job (setVal d "Responsibilities"
        (.strList (xs ++ [pyLstripDashSpace (pyStrip ℓ)])))])))
      (setVal d "Responsibilities" (.strList (xs ++ [pyLstripDashSpace (pyStrip ℓ)])))
      (xs ++ [pyLstripDashSpace (pyStrip ℓ)]) (by simp) (by simp)
      (fun y hy => hwf y (by simp [hy]))
    rw [hrec, setVal_setVal_self, setVal_setVal_self]
    simp [List.append_assoc]

/-- Processing one whole well-formed block under template 2 appends exactly
one job dict (creating the Jobs list when absent) and clears `current_key`. -/
theorem block2_fold (b : JobBlock) (s : PState) (l : List JobsElem)
    (hJ : getVal s.rd "Jobs" = some (.jobs l) ∨ (getVal s.rd "Jobs" = none ∧ l = []))
    (hwf : WFBlock flatJobKeys2 b) :
    (blockLines b).foldlM step2 s =
      .ok ⟨setVal s.rd "Jobs" (.jobs (l ++ [.job (jobDict2 b)])), none⟩ := by
  obtain ⟨hwff, hwfn, hwfb⟩ := hwf
  have hstart : step2 s "---JOB START---" =
      .ok ⟨setVal s.rd "Jobs" (.jobs (l ++ [.job []])), some "Jobs"⟩ := by
    rw [step2_eq_jobStart s _ classifyLine_start]
    rcases hJ with hJ | ⟨hJ, rfl⟩
    · rw [startJob2_ok s.rd l hJ]
      rfl
    · rw [startJob2_ok_none s.rd hJ]
      rfl
  unfold blockLines
  rw [foldlM_cons_ok _ _ _ _ hstart]
  rw [foldlM_append_ok _ _ _ _
    (flats2_fold b.flats _ l [] (by simp) hwff hwfn (fun x _ => by simp [hasKey, getVal]))]
  rw [jobFlatDict_eq, List.nil_append, setVal_setVal_self]
  have hnoresp := jobFlatDict_no_resp b (Or.inr ⟨hwff, hwfn, hwfb⟩)
  have hrespstep : step2 (⟨setVal s.rd "Jobs" (.jobs (l ++ [.job (jobFlatDict b)])),
        some "Jobs"⟩ : PState) "Responsibilities:" =
      .ok ⟨setVal (setVal s.rd "Jobs" (.jobs (l ++ [.job (jobFlatDict b)]))) "Jobs"
        (.jobs (l ++ [.job (setVal (jobFlatDict b) "Responsibilities" (.strList []))])),
        some "Responsibilities"⟩ := by
    rw [step2_eq_kv _ _ _ _ classifyLine_respHeader,
      if_neg resp_not_multiKeys2,
      if_pos ⟨rfl, truthy_getVal_concat _ l (.job (jobFlatDict b)) (by simp)⟩,
      if_neg resp_not_flatJobKeys2,
      if_pos rfl,
      show (if pyStrip "" = "" then (none : Option String)
        else some (pyLstripDashSpace (pyStrip ""))) = none from by decide,
      respInitAppend_ok_none _ l (jobFlatDict b) (by simp) hnoresp]
    rfl
  rw [foldlM_cons_ok _ _ _ _ hrespstep, setVal_setVal_self]
  rw [foldlM_append_ok _ _ _ _
    (bullets2_fold b.bullets _ l (setVal (jobFlatDict b) "Responsibilities" (.strList []))
      [] (by simp) (by simp) hwfb)]
  rw [setVal_setVal_self, setVal_setVal_self, List.nil_append]
  rw [foldlM_cons_ok _ _ _ _ (step2_eq_jobEnd _ "---JOB END---" classifyLine_jobEnd),
    List.foldlM_nil]
  rw [setVal_eq_append (jobFlatDict b) "Responsibilities" _ hnoresp]
  rfl

/-- Processing a list of well-formed blocks under template 2. -/
theorem blocks2_fold (bs : List JobBlock) (s : PState) (l : List JobsElem)
    (hJ : getVal s.rd "Jobs" = some (.jobs l) ∨ (getVal s.rd "Jobs" = none ∧ l = []))
    (hwf : ∀ b ∈ bs, WFBlock flatJobKeys2 b) :
    ∃ s', (bs.flatMap blockLines).foldlM step2 s = .ok s' ∧
      jobsOf s'.rd = l ++ bs.map (fun b => JobsElem.job (jobDict2 b)) := by
  induction bs generalizing s l with
  | nil =>
    refine ⟨s, by rw [List.flatMap_nil, List.foldlM_nil]; rfl, ?_⟩
    rcases hJ with hJ | ⟨hJ, rfl⟩
    · simp [jobsOf, hJ]
    · simp [jobsOf, hJ]
  | cons b rest ih =>
    rw [List.flatMap_cons]
    rw [foldlM_append_ok _ _ _ _ (block2_fold b s l hJ (hwf b (by simp)))]
    obtain ⟨s', hs', hJ'⟩ := ih ⟨setVal s.rd "Jobs" (.jobs (l ++ [.job (jobDict2 b)])), none⟩
      (l ++ [.job (jobDict2 b)]) (Or.inl (by simp))
      (fun b2 hb2 => hwf b2 (by simp [hb2]))
    refine ⟨s', hs', ?_⟩
    rw [hJ']
    simp [List.append_assoc]

/-! ### Final helpers for the claim theorems -/

theorem classifyLine_of_start (line : String) (h : pyStrip line = "---JOB START---") :
    classifyLine line = .jobStart := by
  unfold classifyLine
  rw [if_pos h]

theorem hasKey_false_getVal (d : List (String × α)) (k : String)
    (h : hasKey d k = false) : getVal d k = none := by
  cases hg : getVal d k with
  | none => rfl
  | some v =>
    rw [hasKey, hg] at h
    simp at h

theorem parse1_ok_fold (text : String) (rd : Record)
    (h : parse_text_for_template_1 text = .ok rd) :
    ∃ s', (splitLines text).foldlM step1 ⟨[("Jobs", .jobs [])], none⟩ = .ok s' ∧
      s'.rd = rd := by
  unfold parse_text_for_template_1 at h
  cases hf : (splitLines text).foldlM step1 ⟨[("Jobs", .jobs [])], none⟩ with
  | ok s' =>
    rw [hf] at h
    exact ⟨s', rfl, Except.ok.inj h⟩
  | error e =>
    rw [hf] at h
    exact Except.noConfusion h

theorem parse2_ok_fold (text : String) (rd : Record)
    (h : parse_text_for_template_2 text = .ok rd) :
    ∃ s', (splitLines text).foldlM step2 ⟨[], none⟩ = .ok s' ∧ s'.rd = rd := by
  unfold parse_text_for_template_2 at h
  cases hf : (splitLines text).foldlM step2 ⟨[], none⟩ with
  | ok s' =>
    rw [hf] at h
    exact ⟨s', rfl, Except.ok.inj h⟩
  | error e =>
    rw [hf] at h
    exact Except.noConfusion h

/-! ## The claims -/

/-- C1 counterexample: on the end-to-end example input, the code keeps the
bullet-dash prefixes in the parsed Responsibilities entries (they are only
stripped later, at rendering time), so the parse result differs from the
claimed record exactly in those entries. -/
theorem C1_counterexample :
    parse_text_for_template_1
        "FullName: Jane Doe\n---JOB START---\nCompanyName: Acme\nRole: Engineer\nResponsibilities:\n- Built stuff\n- Fixed bugs\n---JOB END---" =
      .ok [("Jobs", .jobs [.job [("CompanyName", .str "Acme"), ("Role", .str "Engineer"),
        ("Responsibilities", .strList ["- Built stuff", "- Fixed bugs"])]]),
        ("FullName", .str "Jane Doe")] ∧
    (["- Built stuff", "- Fixed bugs"] : List String) ≠ ["Built stuff", "Fixed bugs"] :=
  ⟨rfl, by decide⟩

/-- C1 (amended): on the example input, `parse_text_for_template_1` returns
exactly the record `{FullName: "Jane Doe", Jobs: [{CompanyName: "Acme",
Role: "Engineer", Responsibilities: ["- Built stuff", "- Fixed bugs"]}]}`;
the Responsibilities entries keep their bullet-dash prefix. -/
theorem C1_amended :
    parse_text_for_template_1
        "FullName: Jane Doe\n---JOB START---\nCompanyName: Acme\nRole: Engineer\nResponsibilities:\n- Built stuff\n- Fixed bugs\n---JOB END---" =
      .ok [("Jobs", .jobs [.job [("CompanyName", .str "Acme"), ("Role", .str "Engineer"),
        ("Responsibilities", .strList ["- Built stuff", "- Fixed bugs"])]]),
        ("FullName", .str "Jane Doe")] := rfl

/-- C2: `parse_text_for_template_1` indeed returns a record on every input;
but `parse_text_for_template_2` raises `TypeError` on the input
`"---JOB START---\nhello\nRole: Dev"`: inside a job block the bare line
`hello` executes `resume_data["Jobs"] += line + "\n"`, extending the Jobs
list with six characters, and the following `Role:` line then assigns into
the last element, which is the string `"\n"`. -/
theorem C2_theorem :
    (∀ text, ∃ rd, parse_text_for_template_1 text = .ok rd) ∧
    parse_text_for_template_2 "---JOB START---\nhello\nRole: Dev" = .error "TypeError" :=
  ⟨fun text => by
    obtain ⟨rd, h1, _, _⟩ := parse1_total text
    exact ⟨rd, h1⟩, rfl⟩

/-- C3: with no job-start marker both parsers yield an empty Jobs list; and
an input decomposing into a marker-free header followed by N well-formed
`---JOB START---`/`---JOB END---` blocks yields exactly N job records, the
i-th holding the flat fields and Responsibilities entries of the i-th block
(template 1 keeps the bullet dash, template 2 strips it; the template 2
header must not mention a `Jobs:` key, which would corrupt the record). -/
theorem C3_theorem :
    (∀ text, (∀ ℓ ∈ splitLines text, pyStrip ℓ ≠ "---JOB START---") →
      (∃ rd, parse_text_for_template_1 text = .ok rd ∧ jobsOf rd = []) ∧
      (∃ rd, parse_text_for_template_2 text = .ok rd ∧ jobsOf rd = [])) ∧
    (∀ (text : String) (header : List String) (bs : List JobBlock),
      splitLines text = header ++ bs.flatMap blockLines →
      (∀ ℓ ∈ header, pyStrip ℓ ≠ "---JOB START---") →
      (∀ b ∈ bs, WFBlock flatJobKeys1 b) →
      ∃ rd, parse_text_for_template_1 text = .ok rd ∧
        jobsOf rd = bs.map (fun b => JobsElem.job (jobDict1 b))) ∧
    (∀ (text : String) (header : List String) (bs : List JobBlock),
      splitLines text = header ++ bs.flatMap blockLines →
      (∀ ℓ ∈ header, pyStrip ℓ ≠ "---JOB START---" ∧
        ∀ k v, lineKV ℓ = some (k, v) → k ≠ "Jobs") →
      (∀ b ∈ bs, WFBlock flatJobKeys2 b) →
      ∃ rd, parse_text_for_template_2 text = .ok rd ∧
        jobsOf rd = bs.map (fun b => JobsElem.job (jobDict2 b))) := by
  refine ⟨?_, ?_, ?_⟩
  · intro text hl
    constructor
    · obtain ⟨s', h1, _, _, hjobs⟩ := fold1_noStart (splitLines text)
        ⟨[("Jobs", .jobs [])], none⟩ Inv1_init (by simp) hl
      refine ⟨s'.rd, ?_, ?_⟩
      · unfold parse_text_for_template_1
        rw [h1]
        rfl
      · rw [jobsOf, hjobs]
        rfl
    · obtain ⟨s', h1, hP⟩ := fold2_noStart (splitLines text) ⟨[], none⟩
        ⟨Or.inl rfl, by simp, by simp⟩ hl
      refine ⟨s'.rd, ?_, ?_⟩
      · unfold parse_text_for_template_2
        rw [h1]
        rfl
      · rcases hP.1 with hg | ⟨w, hg⟩ <;> simp [jobsOf, hg]
  · intro text header bs hsplit hheader hwf
    obtain ⟨s1, h1, _, _, hjobs1⟩ := fold1_noStart header
      ⟨[("Jobs", .jobs [])], none⟩ Inv1_init (by simp) hheader
    obtain ⟨s2, h2, hJ2⟩ := blocks1_fold bs s1 [] (by rw [hjobs1]; rfl) hwf
    refine ⟨s2.rd, ?_, ?_⟩
    · unfold parse_text_for_template_1
      rw [hsplit, foldlM_append_ok _ _ _ _ h1, h2]
      rfl
    · rw [jobsOf, hJ2]
      rfl
  · intro text header bs hsplit hheader hwf
    obtain ⟨s1, h1, hP1⟩ := foldlM_ok_of_inv (f := step2)
      (P := fun s2 => hasKey s2.rd "Jobs" = false) header ⟨[], none⟩ rfl
      (fun s2 a ha hP2 => step2_noJobsKey s2 a hP2 (hheader a ha).1 (hheader a ha).2)
    obtain ⟨s2, h2, hJ2⟩ := blocks2_fold bs s1 []
      (Or.inr ⟨hasKey_false_getVal _ _ hP1, rfl⟩) hwf
    refine ⟨s2.rd, ?_, ?_⟩
    · unfold parse_text_for_template_2
      rw [hsplit, foldlM_append_ok _ _ _ _ h1, h2]
      rfl
    · rw [hJ2]
      rfl

/-- C3 witness: the no-marker case on a concrete input, and one concrete
well-formed block per parser. -/
theorem C3_witness :
    (∃ rd, parse_text_for_template_1 "FullName: Jane Doe" = .ok rd ∧ jobsOf rd = []) ∧
    (∃ rd, parse_text_for_template_2 "FullName: Jane Doe" = .ok rd ∧ jobsOf rd = []) ∧
    (∃ rd, parse_text_for_template_1
        "---JOB START---\nRole: Dev\nResponsibilities:\n- Ship\n---JOB END---" = .ok rd ∧
      jobsOf rd = [.job (jobDict1 ⟨[("Role: Dev", "Role", " Dev")], ["- Ship"]⟩)]) ∧
    (∃ rd, parse_text_for_template_2
        "---JOB START---\nRole: Dev\nResponsibilities:\n- Ship\n---JOB END---" = .ok rd ∧
      jobsOf rd = [.job (jobDict2 ⟨[("Role: Dev", "Role", " Dev")], ["- Ship"]⟩)]) :=
  ⟨(C3_theorem.1 "FullName: Jane Doe" (by decide)).1,
   (C3_theorem.1 "FullName: Jane Doe" (by decide)).2,
   C3_theorem.2.1 "---JOB START---\nRole: Dev\nResponsibilities:\n- Ship\n---JOB END---"
     [] [⟨[("Role: Dev", "Role", " Dev")], ["- Ship"]⟩] (by decide) (by decide) (by decide),
   C3_theorem.2.2 "---JOB START---\nRole: Dev\nResponsibilities:\n- Ship\n---JOB END---"
     [] [⟨[("Role: Dev", "Role", " Dev")], ["- Ship"]⟩] (by decide)
     (fun ℓ hℓ => absurd hℓ (List.not_mem_nil ℓ)) (by decide)⟩

/-- C4 counterexample: template 1 appends the bullet line to the open
Responsibilities list without stripping its dash prefix, so the single
entry is `"- Led initiative: delivered on time"`, not the dash-stripped
string the claim requires of both parsers. -/
theorem C4_counterexample :
    parse_text_for_template_1
        "---JOB START---\nResponsibilities:\n- Led initiative: delivered on time\n---JOB END---" =
      .ok [("Jobs", .jobs [.job
        [("Responsibilities", .strList ["- Led initiative: delivered on time"])]])] ∧
    ("- Led initiative: delivered on time" : String) ≠ "Led initiative: delivered on time" :=
  ⟨rfl, by decide⟩

/-- C4 (amended): while Responsibilities accumulation is active, the line
`"- Led initiative: delivered on time"` is never split at its colon and is
appended as one entry to the current job's Responsibilities list in both
parsers; template 2 appends it trimmed with the bullet dash stripped, while
template 1 appends the trimmed line with its dash prefix intact. -/
theorem C4_amended (rd : Record) (l : List JobsElem) (d : JobDict) (xs : List String)
    (hJ : getVal rd "Jobs" = some (.jobs (l ++ [.job d])))
    (hresp : getVal d "Responsibilities" = some (.strList xs)) :
    step1 ⟨rd, some "Responsibilities"⟩ "- Led initiative: delivered on time" =
      .ok ⟨setVal rd "Jobs" (.jobs (l ++ [.job (setVal d "Responsibilities"
        (.strList (xs ++ ["- Led initiative: delivered on time"])))])),
        some "Responsibilities"⟩ ∧
    step2 ⟨rd, some "Responsibilities"⟩ "- Led initiative: delivered on time" =
      .ok ⟨setVal rd "Jobs" (.jobs (l ++ [.job (setVal d "Responsibilities"
        (.strList (xs ++ ["Led initiative: delivered on time"])))])),
        some "Responsibilities"⟩ := by
  constructor
  · rw [step1_eq_plain _ _ (by decide),
      afterKV1_eq_some ⟨rd, some "Responsibilities"⟩ _ "Responsibilities" rfl,
      if_neg (fun hmb => resp_not_mainKeys1 hmb.1),
      if_pos ⟨rfl, by decide⟩,
      respAppendIfPresent_ok rd l d xs
        (pyStrip "- Led initiative: delivered on time") hJ hresp]
    rfl
  · rw [step2_eq_plain_some ⟨rd, some "Responsibilities"⟩ _ "Responsibilities" (by decide) rfl,
      if_pos ⟨rfl, truthy_getVal_concat rd l _ hJ⟩,
      if_pos (by decide : pyStrip "- Led initiative: delivered on time" ≠ ""),
      respAppend2_ok rd l d xs
        (pyLstripDashSpace (pyStrip "- Led initiative: delivered on time")) hJ hresp]
    rfl

/-- C4 witness: the amended step equations at a concrete job state. -/
theorem C4_witness :
    step1 ⟨[("Jobs", .jobs [.job [("Responsibilities", .strList [])]])],
        some "Responsibilities"⟩ "- Led initiative: delivered on time" =
      .ok ⟨[("Jobs", .jobs [.job [("Responsibilities",
        .strList ["- Led initiative: delivered on time"])]])], some "Responsibilities"⟩ ∧
    step2 ⟨[("Jobs", .jobs [.job [("Responsibilities", .strList [])]])],
        some "Responsibilities"⟩ "- Led initiative: delivered on time" =
      .ok ⟨[("Jobs", .jobs [.job [("Responsibilities",
        .strList ["Led initiative: delivered on time"])]])], some "Responsibilities"⟩ :=
  C4_amended [("Jobs", .jobs [.job [("Responsibilities", .strList [])]])]
    [] [("Responsibilities", .strList [])] [] rfl rfl

/-- C5 counterexample: for the Education example, template 1 stores the
field with a leading newline and template 2 with a leading and a trailing
newline, so neither equals the claimed string exactly. -/
theorem C5_counterexample :
    parse_text_for_template_1
        "Education:\nBSc Computer Science\nState University, 2015\nCertifications:" =
      .ok [("Jobs", .jobs []),
        ("Education", .str "\nBSc Computer Science\nState University, 2015"),
        ("Certifications", .str "")] ∧
    parse_text_for_template_2
        "Education:\nBSc Computer Science\nState University, 2015\nCertifications:" =
      .ok [("Education", .str "\nBSc Computer Science\nState University, 2015\n"),
        ("Certifications", .str "")] ∧
    ("\nBSc Computer Science\nState University, 2015" : String) ≠
      "BSc Computer Science\nState University, 2015" ∧
    ("\nBSc Computer Science\nState University, 2015\n" : String) ≠
      "BSc Computer Science\nState University, 2015" :=
  ⟨rfl, rfl, by decide, by decide⟩

/-- C5 (amended): on the example input the Education field accumulates the
two lines newline-joined, but template 1 keeps a leading newline (the empty
seed of the field is joined to the first line) and template 2 keeps a
leading and a trailing newline; stripping whitespace from either value
yields exactly the claimed string. -/
theorem C5_amended :
    parse_text_for_template_1
        "Education:\nBSc Computer Science\nState University, 2015\nCertifications:" =
      .ok [("Jobs", .jobs []),
        ("Education", .str "\nBSc Computer Science\nState University, 2015"),
        ("Certifications", .str "")] ∧
    parse_text_for_template_2
        "Education:\nBSc Computer Science\nState University, 2015\nCertifications:" =
      .ok [("Education", .str "\nBSc Computer Science\nState University, 2015\n"),
        ("Certifications", .str "")] ∧
    pyStrip "\nBSc Computer Science\nState University, 2015" =
      "BSc Computer Science\nState University, 2015" ∧
    pyStrip "\nBSc Computer Science\nState University, 2015\n" =
      "BSc Computer Science\nState University, 2015" :=
  ⟨rfl, rfl, by decide, by decide⟩

/-- C6: an unrecognized `key: value` line outside a job creates no field in
template 1 (its records only ever hold `"Jobs"` and the recognized main
keys), while template 2 stores it as an ad-hoc top-level field and resets
`current_key` to `None`. -/
theorem C6_theorem :
    (∀ text rd, parse_text_for_template_1 text = .ok rd →
      hasKey rd "RandomField" = false) ∧
    (∀ s : PState, s.ck ≠ some "Jobs" →
      step2 s "RandomField: x" = .ok ⟨setVal s.rd "RandomField" (.str "x"), none⟩) := by
  constructor
  · intro text rd h
    obtain ⟨rd0, h0, _, hkeys⟩ := parse1_total text
    rw [h0] at h
    have hrd : hasKey rd0 "RandomField" = false := by
      cases hhk : hasKey rd0 "RandomField" with
      | false => rfl
      | true => exact absurd (hkeys "RandomField" hhk) (by decide)
    rw [← Except.ok.inj h]
    exact hrd
  · intro s hck
    rw [step2_eq_kv s _ "RandomField" " x" (by decide),
      if_neg (by decide : ¬ ("RandomField" ∈ multiKeys2)),
      if_neg (fun hj => hck hj.1)]
    rfl

/-- C6 witness: the template 1 half on the concrete input
`"RandomField: x"`, and the template 2 step from the empty state. -/
theorem C6_witness :
    hasKey [("Jobs", TopVal.jobs [])] "RandomField" = false ∧
    step2 ⟨[], none⟩ "RandomField: x" = .ok ⟨[("RandomField", .str "x")], none⟩ :=
  ⟨C6_theorem.1 "RandomField: x" [("Jobs", .jobs [])] rfl,
   C6_theorem.2 ⟨[], none⟩ (by decide)⟩

/-- C7 counterexample: after a `Responsibilities:` line has switched the
parser into list accumulation, a `Client: Foo` line inside the job is not
written into the job record by either parser: template 1 appends the whole
line to the Responsibilities list and template 2 stores it as an ad-hoc
top-level field, so in both results the first job has no `Client` field. -/
theorem C7_counterexample :
    parse_text_for_template_1 "---JOB START---\nResponsibilities:\n- a\nClient: Foo\n---JOB END---" =
      .ok [("Jobs", .jobs [.job [("Responsibilities", .strList ["- a", "Client: Foo"])]])] ∧
    firstJobField [("Jobs", .jobs [.job [("Responsibilities", .strList ["- a", "Client: Foo"])]])]
      "Client" = none ∧
    parse_text_for_template_2 "---JOB START---\nResponsibilities:\n- a\nClient: Foo\n---JOB END---" =
      .ok [("Jobs", .jobs [.job [("Responsibilities", .strList ["a"])]]), ("Client", .str "Foo")] ∧
    firstJobField [("Jobs", .jobs [.job [("Responsibilities", .strList ["a"])]]),
      ("Client", .str "Foo")] "Client" = none :=
  ⟨rfl, rfl, rfl, rfl⟩

/-- C7 (amended): while `current_key` is `"Jobs"` (inside a job, before a
`Responsibilities:` line switches to list accumulation), a recognized flat
job-key line writes its trimmed value into the last job record under that
key in both parsers, leaving `current_key` unchanged, and the written value
is what a lookup of that key then returns (so a repeated key overwrites). -/
theorem C7_amended (rd : Record) (l : List JobsElem) (d : JobDict) (line k v : String)
    (hkv : lineKV line = some (k, v))
    (h1 : pyStrip line ≠ "---JOB START---") (h2 : pyStrip line ≠ "---JOB END---")
    (hJ : getVal rd "Jobs" = some (.jobs (l ++ [.job d]))) :
    (k ∈ flatJobKeys1 →
      step1 ⟨rd, some "Jobs"⟩ line =
        .ok ⟨setVal rd "Jobs" (.jobs (l ++ [.job (setVal d k (.str (pyStrip v)))])),
          some "Jobs"⟩) ∧
    (k ∈ flatJobKeys2 →
      step2 ⟨rd, some "Jobs"⟩ line =
        .ok ⟨setVal rd "Jobs" (.jobs (l ++ [.job (setVal d k (.str (pyStrip v)))])),
          some "Jobs"⟩) ∧
    (∀ w : String, getVal (setVal d k (.str w)) k = some (.str w)) := by
  have hcls : classifyLine line = .kv k v := classifyLine_eq_kv_of line k v hkv h1 h2
  refine ⟨?_, ?_, ?_⟩
  · intro hks
    rw [step1_eq_kv ⟨rd, some "Jobs"⟩ line k v hcls,
      if_neg (flat1_not_main k hks),
      if_pos ⟨rfl, flat1_mem_jobKeys1 k hks⟩,
      if_pos hks,
      setLastJobField_ok rd l d k (pyStrip v) hJ]
    rfl
  · intro hks
    rw [step2_eq_kv ⟨rd, some "Jobs"⟩ line k v hcls,
      if_neg (flat2_not_multi k hks),
      if_pos ⟨rfl, truthy_getVal_concat rd l _ hJ⟩,
      if_pos hks,
      setLastJobField_ok rd l d k (pyStrip v) hJ]
    rfl
  · intro w
    exact getVal_setVal_self d k (.str w)

/-- C7 witness: the amended flat-field write for the line `"Client: Foo"`
in a job whose record already holds a `Client` value (showing overwrite). -/
theorem C7_witness :
    step1 ⟨[("Jobs", .jobs [.job [("Client", .str "Old")]])], some "Jobs"⟩ "Client: Foo" =
      .ok ⟨[("Jobs", .jobs [.job [("Client", .str "Foo")]])], some "Jobs"⟩ ∧
    step2 ⟨[("Jobs", .jobs [.job [("Client", .str "Old")]])], some "Jobs"⟩ "Client: Foo" =
      .ok ⟨[("Jobs", .jobs [.job [("Client", .str "Foo")]])], some "Jobs"⟩ ∧
    getVal (setVal [("Client", JVal.str "Old")] "Client" (.str "Foo")) "Client" =
      some (.str "Foo") :=
  ⟨(C7_amended [("Jobs", .jobs [.job [("Client", .str "Old")]])] [] [("Client", .str "Old")]
      "Client: Foo" "Client" " Foo" (by decide) (by decide) (by decide) rfl).1 (by decide),
   (C7_amended [("Jobs", .jobs [.job [("Client", .str "Old")]])] [] [("Client", .str "Old")]
      "Client: Foo" "Client" " Foo" (by decide) (by decide) (by decide) rfl).2.1 (by decide),
   (C7_amended [("Jobs", .jobs [.job [("Client", .str "Old")]])] [] [("Client", .str "Old")]
      "Client: Foo" "Client" " Foo" (by decide) (by decide) (by decide) rfl).2.2 "Foo"⟩

/-- C8: both parsers split a key:value line only at its first colon (the
splitting primitive returns everything before the first occurrence as the
key and everything after it, later colons included, as the value), and on
the line `"Description: revenue growth: 20%"` template 1 stores the job
field value `"revenue growth: 20%"` and template 2 the ad-hoc field value
`"revenue growth: 20%"`, interior colon preserved and both sides trimmed. -/
theorem C8_theorem :
    (∀ pre post : List Char, ':' ∉ pre →
      splitFirstAux ':' (pre ++ ':' :: post) = some (pre, post)) ∧
    (∀ (rd : Record) (l : List JobsElem) (d : JobDict),
      getVal rd "Jobs" = some (.jobs (l ++ [.job d])) →
      step1 ⟨rd, some "Jobs"⟩ "Description: revenue growth: 20%" =
        .ok ⟨setVal rd "Jobs" (.jobs (l ++ [.job (setVal d "Description"
          (.str "revenue growth: 20%"))])), some "Jobs"⟩) ∧
    step2 ⟨[], none⟩ "Description: revenue growth: 20%" =
      .ok ⟨[("Description", .str "revenue growth: 20%")], none⟩ := by
  refine ⟨fun pre post h => splitFirstAux_append ':' pre post h, ?_, rfl⟩
  intro rd l d hJ
  rw [step1_eq_kv ⟨rd, some "Jobs"⟩ _ "Description" " revenue growth: 20%" (by decide),
    if_neg (by decide : ¬ ("Description" ∈ mainKeys1)),
    if_pos ⟨rfl, by decide⟩,
    if_pos (by decide : "Description" ∈ flatJobKeys1),
    setLastJobField_ok rd l d "Description" (pyStrip " revenue growth: 20%") hJ]
  rfl

/-- C8 witness: the first-colon split on the example line's pieces, and the
template 1 step at a concrete job state. -/
theorem C8_witness :
    splitFirstAux ':' ("Description".data ++ ':' :: " revenue growth: 20%".data) =
      some ("Description".data, " revenue growth: 20%".data) ∧
    step1 ⟨[("Jobs", .jobs [.job []])], some "Jobs"⟩ "Description: revenue growth: 20%" =
      .ok ⟨[("Jobs", .jobs [.job [("Description", .str "revenue growth: 20%")]])],
        some "Jobs"⟩ :=
  ⟨C8_theorem.1 "Description".data " revenue growth: 20%".data (by decide),
   C8_theorem.2.1 [("Jobs", .jobs [.job []])] [] [] rfl⟩

/-- C9 counterexample: in template 2, a blank line during free-text
accumulation appends a newline to the accumulating field, so adding a
trailing blank line before the next recognized key (`Publications`) changes
the output record. -/
theorem C9_counterexample :
    parse_text_for_template_2 "Education:\nfoo\n\nPublications:" =
      .ok [("Education", .str "\nfoo\n\n"), ("Publications", .str "\n")] ∧
    parse_text_for_template_2 "Education:\nfoo\nPublications:" =
      .ok [("Education", .str "\nfoo\n"), ("Publications", .str "\n")] ∧
    ("\nfoo\n\n" : String) ≠ "\nfoo\n" :=
  ⟨rfl, rfl, by decide⟩

/-- C9 (amended): a blank line is a complete no-op in template 1; in
template 2 it never changes `current_key` and the step always succeeds, but
while a free-text field is accumulating (`current_key` bound to a key
present in the record, other than `"Responsibilities"`) the blank line is
appended, newline-terminated, to that field. -/
theorem C9_amended :
    (∀ (s : PState) (line : String), pyStrip line = "" → step1 s line = .ok s) ∧
    (∀ (s : PState) (line : String), pyStrip line = "" →
      ∃ rd2, step2 s line = .ok ⟨rd2, s.ck⟩) ∧
    (∀ (rd : Record) (c : String) (v : TopVal) (line : String), pyStrip line = "" →
      c ≠ "Responsibilities" → getVal rd c = some v →
      step2 ⟨rd, some c⟩ line = .ok ⟨setVal rd c (topIAdd v (line ++ "\n")), some c⟩) := by
  refine ⟨?_, ?_, ?_⟩
  · intro s line hb
    rw [step1_eq_plain s line (classifyLine_of_blank line hb)]
    cases hck : s.ck with
    | none => exact afterKV1_eq_none s line hck
    | some c =>
      rw [afterKV1_eq_some s line c hck,
        if_neg (fun hmb => hmb.2.2 hb),
        if_neg (fun hrb => hrb.2 hb)]
  · intro s line hb
    cases hck : s.ck with
    | none =>
      refine ⟨s.rd, ?_⟩
      rw [step2_eq_plain_none s line (classifyLine_of_blank line hb) hck,
        show s = (⟨s.rd, none⟩ : PState) from by rw [← hck]]
    | some c =>
      rw [step2_eq_plain_some s line c (classifyLine_of_blank line hb) hck]
      by_cases hrb : c = "Responsibilities" ∧ truthyOpt (getVal s.rd "Jobs")
      · rw [if_pos hrb, if_neg (fun hne => hne hb)]
        exact ⟨s.rd, by rw [show s = (⟨s.rd, some c⟩ : PState) from by rw [← hck]]⟩
      · rw [if_neg hrb]
        cases hg : getVal s.rd c with
        | some tv => exact ⟨setVal s.rd c (topIAdd tv (line ++ "\n")), rfl⟩
        | none =>
          exact ⟨s.rd, by
            rw [show s = (⟨s.rd, some c⟩ : PState) from by rw [← hck]]⟩
  · intro rd c v line hb hc hv
    rw [step2_eq_plain_some ⟨rd, some c⟩ line c (classifyLine_of_blank line hb) rfl,
      if_neg (fun hrb => hc hrb.1), hv]

/-- C9 witness: the blank-line behaviors at concrete states — a no-op for
template 1, and a newline appended to an accumulating Education field for
template 2. -/
theorem C9_witness :
    step1 ⟨[("Jobs", .jobs [])], none⟩ "" = .ok ⟨[("Jobs", .jobs [])], none⟩ ∧
    (∃ rd2, step2 ⟨[], none⟩ "" = .ok ⟨rd2, none⟩) ∧
    step2 ⟨[("Education", .str "\n")], some "Education"⟩ "" =
      .ok ⟨[("Education", .str "\n\n")], some "Education"⟩ :=
  ⟨C9_amended.1 ⟨[("Jobs", .jobs [])], none⟩ "" rfl,
   C9_amended.2.1 ⟨[], none⟩ "" rfl,
   C9_amended.2.2 [("Education", .str "\n")] "Education" (.str "\n") "" rfl
     (by decide) rfl⟩

/-- C10 counterexample: the input `"Jobs: hello"` contains no line whose
trimmed form is the job-start marker, yet the template 2 record contains
the key `"Jobs"` (bound to the string `"hello"`, created by the ad-hoc
`key: value` branch), refuting the claimed equivalence. -/
theorem C10_counterexample :
    parse_text_for_template_2 "Jobs: hello" = .ok [("Jobs", .str "hello")] ∧
    splitLines "Jobs: hello" = ["Jobs: hello"] ∧
    pyStrip "Jobs: hello" ≠ "---JOB START---" ∧
    hasKey [("Jobs", TopVal.str "hello")] "Jobs" = true :=
  ⟨rfl, rfl, by decide, rfl⟩

/-- C10 (amended): every template 1 record binds `"Jobs"` to a list; a
template 2 record contains `"Jobs"` whenever some line trims to the start
marker, and, conversely, lacks the key when no line trims to the start
marker and no key:value line has the trimmed key `"Jobs"` (such a line
creates the key ad hoc, bound to a string). -/
theorem C10_amended :
    (∀ text rd, parse_text_for_template_1 text = .ok rd →
      ∃ l, getVal rd "Jobs" = some (.jobs l)) ∧
    (∀ text rd, parse_text_for_template_2 text = .ok rd →
      (∃ ℓ ∈ splitLines text, pyStrip ℓ = "---JOB START---") →
      hasKey rd "Jobs" = true) ∧
    (∀ text rd, parse_text_for_template_2 text = .ok rd →
      (∀ ℓ ∈ splitLines text, pyStrip ℓ ≠ "---JOB START---" ∧
        ∀ k v, lineKV ℓ = some (k, v) → k ≠ "Jobs") →
      hasKey rd "Jobs" = false) := by
  refine ⟨?_, ?_, ?_⟩
  · intro text rd h
    obtain ⟨rd0, h0, ⟨l, hl, _⟩, _⟩ := parse1_total text
    rw [h0] at h
    rw [← Except.ok.inj h]
    exact ⟨l, hl⟩
  · intro text rd h hstart
    obtain ⟨s', hfold, hrd⟩ := parse2_ok_fold text rd h
    obtain ⟨ℓ, hmem, hstrip⟩ := hstart
    obtain ⟨pre, post, hdecomp⟩ := List.append_of_mem hmem
    rw [hdecomp] at hfold
    obtain ⟨s1, hpre, hrest⟩ := foldlM_ok_left pre (ℓ :: post) _ _ hfold
    rw [List.foldlM_cons] at hrest
    cases hstep : step2 s1 ℓ with
    | ok s2 =>
      rw [hstep] at hrest
      simp only [Bind.bind, Except.bind] at hrest
      have hs2 : hasKey s2.rd "Jobs" = true := by
        rw [step2_eq_jobStart s1 ℓ (classifyLine_of_start ℓ hstrip)] at hstep
        cases hsj : startJob2 s1.rd with
        | ok rd2 =>
          rw [hsj] at hstep
          obtain ⟨x, rfl⟩ := startJob2_shape s1.rd rd2 hsj
          rw [show s2 = (⟨setVal s1.rd "Jobs" x, some "Jobs"⟩ : PState) from
            (Except.ok.inj hstep).symm]
          exact (hasKey_setVal s1.rd "Jobs" "Jobs" x).mpr (Or.inl rfl)
        | error e =>
          rw [hsj] at hstep
          exact Except.noConfusion hstep
      rw [← hrd]
      exact fold2_hasKey_mono post s2 s' "Jobs" hrest hs2
    | error e =>
      rw [hstep] at hrest
      simp only [Bind.bind, Except.bind] at hrest
      exact Except.noConfusion hrest
  · intro text rd h hlines
    obtain ⟨s', hfold, hrd⟩ := parse2_ok_fold text rd h
    obtain ⟨s2, hfold2, hP⟩ := foldlM_ok_of_inv (f := step2)
      (P := fun s2 => hasKey s2.rd "Jobs" = false) (splitLines text) ⟨[], none⟩ rfl
      (fun s2 a ha hP2 => step2_noJobsKey s2 a hP2 (hlines a ha).1 (hlines a ha).2)
    rw [hfold] at hfold2
    rw [← hrd, Except.ok.inj hfold2]
    exact hP

/-- C10 witness: the three amended statements at concrete inputs. -/
theorem C10_witness :
    (∃ l, getVal [("Jobs", TopVal.jobs [])] "Jobs" = some (TopVal.jobs l)) ∧
    hasKey [("Jobs", TopVal.jobs [JobsElem.job []])] "Jobs" = true ∧
    hasKey ([] : Record) "Jobs" = false :=
  ⟨C10_amended.1 "" [("Jobs", .jobs [])] rfl,
   C10_amended.2.1 "---JOB START---" [("Jobs", .jobs [.job []])] rfl
     ⟨"---JOB START---", by decide, rfl⟩,
   C10_amended.2.2 "" [] rfl (by
     intro ℓ hℓ
     have hℓ2 : ℓ ∈ [""] := hℓ
     rw [List.mem_singleton] at hℓ2
     subst hℓ2
     exact ⟨by decide, fun k v hkv => Option.noConfusion hkv⟩)⟩

end ResumeConverter
